import Mathlib

/-!
# Reconciliation core of the lambda controller (`lambda_controller.go`)

A shallow embedding of the per-parent reconciliation pass: the child map and its keys,
`deleteChildren`, `updateChildren`, `manageChildren`, `updateParentStatus` and
`syncParentResource`, followed by the properties proved about them.

Conventions of the embedding.

* A Go `interface{}` holding decoded JSON is a `Value`; a Go `map[string]T` is an association
  list whose order is the order in which `range` visits the entries. Go leaves that order
  unspecified, so every statement about a loop is proved for all lists.
* The orchestration platform is a state machine `Platform σ`: each client call takes the
  platform state and returns the next state together with the call's result.
* The functions that call child resource clients return a `Run`: the final platform state,
  the child operations issued (with the error each one returned, if any) and the Go return
  value. A Go panic is the outcome `panicked`.
* `glog` calls have no effect on the results and are left out.
-/

namespace Metacontroller

/-! ## Dynamically typed content -/

/-- A Go `interface{}` value as found in the content of an `unstructured.Unstructured`.
`null` is the nil interface, `nilMap` a nil `map[string]interface{}`, `map` a non-nil one,
`int` an `int64`, `float` a finite `float64` (given by its exact value, so that `==` on
floats is equality here), `slice` a non-nil `[]interface{}`. -/
inductive Value where
  | null
  | bool (b : Bool)
  | int (n : Int)
  | float (q : Rat)
  | str (s : String)
  | slice (xs : List Value)
  | nilMap
  | map (kvs : List (String × Value))

/-- A Go `map[string]interface{}` that is not nil. -/
abbrev Fields := List (String × Value)

/-- The Go map read `m[k]` on a map with values of type `α`; `none` when the key is absent. -/
def mapGet {α : Type} (k : String) : List (String × α) → Option α
  | [] => none
  | (k', v) :: rest => if k' = k then some v else mapGet k rest

/-- The Go map write `m[k] = v`: the entry of `k` is replaced, or a new entry is added. -/
def mapSet {α : Type} (k : String) (v : α) : List (String × α) → List (String × α)
  | [] => [(k, v)]
  | (k', v') :: rest => if k' = k then (k, v) :: rest else (k', v') :: mapSet k v rest

/-- The keys of a Go map, in iteration order. -/
def mapKeys {α : Type} (m : List (String × α)) : List String := m.map Prod.fst

namespace Value

mutual
/-- Go `reflect.DeepEqual` on two `interface{}` values: the dynamic types must agree; maps are
equal when both are nil or both are non-nil of the same length and every key of the first is
present in the second with a deep-equal value; slices are compared element by element. -/
def deepEqual : Value → Value → Bool
  | .null, .null => true
  | .bool a, .bool b => a == b
  | .int a, .int b => a == b
  | .float a, .float b => a == b
  | .str a, .str b => a == b
  | .slice xs, .slice ys => deepEqualSlice xs ys
  | .nilMap, .nilMap => true
  | .map m1, .map m2 => m1.length == m2.length && deepEqualMap m1 m2
  | _, _ => false
/-- The element-wise part of `reflect.DeepEqual` on two slices. -/
def deepEqualSlice : List Value → List Value → Bool
  | [], [] => true
  | x :: xs, y :: ys => deepEqual x y && deepEqualSlice xs ys
  | _, _ => false
/-- The per-key part of `reflect.DeepEqual` on two maps: every entry of the first map has a
deep-equal entry under the same key in the second. -/
def deepEqualMap : List (String × Value) → List (String × Value) → Bool
  | [], _ => true
  | (k, v) :: rest, m2 =>
    (match mapGet k m2 with
     | some v2 => deepEqual v v2
     | none => false) && deepEqualMap rest m2
end

end Value

/-- Modelled from the spec: `k8s.GetNestedField` of `third_party/kubernetes`, which is not
among the sources. It walks `fields` through nested maps ("its current `status`") and yields
the nil interface as soon as the value at hand is not a map or lacks the field. -/
def getNestedField : Value → List String → Value
  | v, [] => v
  | .map m, f :: fs =>
    match mapGet f m with
    | some v => getNestedField v fs
    | none => getNestedField .null fs
  | _, _ :: _ => .null

/-- Modelled from the spec: `k8s.GetNestedString` of `third_party/kubernetes`: the string at
the given path, and the empty string when the value there is not a string. -/
def getNestedString (v : Value) (fields : List String) : String :=
  match getNestedField v fields with
  | .str s => s
  | _ => ""

/-- Modelled from the spec: `k8s.SetNestedField(obj, value, fields...)` of
`third_party/kubernetes`, which is not among the sources. It writes `value` at the path
`fields` ("replace `status` wholesale (other fields untouched)"), creating the intermediate
maps that are missing. The sources only call it with a path of one field; an empty path,
which the helper cannot be given a meaning for, leaves the map as it is. -/
def setNestedField : Fields → Value → List String → Fields
  | m, _, [] => m
  | m, value, [f] => mapSet f value m
  | m, value, f :: f' :: fs =>
    let sub : Fields :=
      match mapGet f m with
      | some (.map sub) => sub
      | _ => []
    mapSet f (.map (setNestedField sub value (f' :: fs))) m

/-- An `unstructured.Unstructured`: an object given by its content tree `Object`. -/
structure Unstructured where
  object : Fields

namespace Unstructured

/-- The content tree `UnstructuredContent()` as an interface value. -/
def content (u : Unstructured) : Value := .map u.object

/-- The accessor `GetAPIVersion()`. -/
def getAPIVersion (u : Unstructured) : String := getNestedString u.content ["apiVersion"]

/-- The accessor `GetKind()`. -/
def getKind (u : Unstructured) : String := getNestedString u.content ["kind"]

/-- The accessor `GetNamespace()`. -/
def getNamespace (u : Unstructured) : String :=
  getNestedString u.content ["metadata", "namespace"]

/-- The accessor `GetName()`. -/
def getName (u : Unstructured) : String := getNestedString u.content ["metadata", "name"]

/-- The accessor `GetUID()`. -/
def getUID (u : Unstructured) : String := getNestedString u.content ["metadata", "uid"]

/-- Whether `GetDeletionTimestamp()` is non-nil: the string at `metadata.deletionTimestamp`
parses to a time other than the zero time. The parser belongs to the platform library and is
the parameter `timeNonZero`. -/
def hasDeletionTimestamp (timeNonZero : String → Bool) (u : Unstructured) : Bool :=
  timeNonZero (getNestedString u.content ["metadata", "deletionTimestamp"])

end Unstructured

/-! ## Errors, clients and the platform -/

/-- The label selector read from `spec.selector`, as the raw value. -/
structure LabelSelector where
  raw : Value

/-- A Go `error`. `api` is an error value handed back by a collaborator (the platform, the
discovery lookup, the webhook); the other constructors are the errors built in
`lambda_controller.go`, one per `fmt.Errorf` template, and `utilerrors.NewAggregate`. -/
inductive Error where
  | api (msg : String)
  | aggregate (errs : List Error)
  | cantDelete (kind ns name : String) (cause : Error)
  | cantReconcile (kind ns name : String) (cause : Error)
  | cantUpdateStatus (kind ns name : String) (cause : Error)
  | cantGetSelector (kind ns name : String)
  | cantConvertSelector (labelSelector : LabelSelector) (cause : Error)
  | cantClaimChildren (cause : Error)
  | hookFailed (kind ns name : String) (cause : Error)
  | cantList (kind : String) (cause : Error)
  | cantClaim (kind : String) (cause : Error)
  | parentGone (kind ns name gotUID wantedUID : String)

/-- The function `utilerrors.NewAggregate`: nil for an empty list, an aggregate otherwise. -/
def newAggregate (errs : List Error) : Option Error :=
  if errs.isEmpty then none else some (.aggregate errs)

/-- What a Go call comes to: it returns a value, or it panics. -/
inductive Outcome (α : Type) where
  | returned (a : α)
  | panicked
  deriving DecidableEq

/-- The outcome of a computation that goes on with the returned value; a panic stays. -/
def Outcome.map {α β : Type} (f : α → β) : Outcome α → Outcome β
  | .returned a => .returned (f a)
  | .panicked => .panicked

/-- Modelled from the spec: the type `APIResource`, whose declaration is not among the
sources: the static metadata of a kind (`apiVersion`, plural `resource` name, `kind`). -/
structure APIResource where
  apiVersion : String
  name : String
  kind : String

/-- Modelled from the spec: the type `dynamicResourceClient`, whose declaration is not among
the sources: a resource client for `(apiVersion, resource, namespace)` that also exposes the
`kind`. -/
structure Client where
  apiVersion : String
  kind : String
  resource : String
  ns : String
  deriving DecidableEq

/-- A mutating call on a child resource client. -/
inductive Op where
  | create (client : Client) (obj : Unstructured)
  | update (client : Client) (obj : Unstructured)
  | delete (client : Client) (name : String) (uidPrecondition : String)

namespace Op

/-- Whether the call is a `Delete`. -/
def isDelete : Op → Bool
  | .delete _ _ _ => true
  | _ => false

/-- Whether the call is a `Create`. -/
def isCreate : Op → Bool
  | .create _ _ => true
  | _ => false

/-- Whether the call is an `Update`. -/
def isUpdate : Op → Bool
  | .update _ _ => true
  | _ => false

end Op

/-- A Go `map[string]*unstructured.Unstructured`: the children of one key, by name. -/
abbrev ObjMap := List (String × Unstructured)

/-- The type `childMap`: from the key `"<kind>.<apiVersion>"` to the children by name. -/
abbrev ChildMap := List (String × ObjMap)

/-- A `labels.Selector`, as the label selector it was converted from. -/
structure Selector where
  source : LabelSelector

/-- Modelled from the spec: the configuration type `v1alpha1.LambdaController`, whose
declaration is not among the sources: `parentResource { apiVersion, resource }`. -/
structure ResourceRule where
  apiVersion : String
  resource : String

/-- Modelled from the spec: one group of `childResources`: `{ apiVersion, resources[] }`. -/
structure ResourceGroup where
  apiVersion : String
  resources : List String

/-- Modelled from the spec: the configuration object: `parentResource`, `childResources` as
an ordered collection of groups, and `hook { url }`. -/
structure LambdaController where
  parentResource : ResourceRule
  childResources : List ResourceGroup
  hookURL : String

/-- Modelled from the spec: the type `syncHookResponse`, whose declaration is not among the
sources: `{ status, children[] }`. The `status` is a Go `map[string]interface{}`, `none` when
it is nil. -/
structure SyncHookResponse where
  status : Option Fields
  children : List Unstructured

/-- A Go `map[string]interface{}` stored in an `interface{}`. -/
def mapValue : Option Fields → Value
  | none => .nilMap
  | some m => .map m

/-- The collaborators of the reconciliation core, none of which is among the sources: the
platform library (`timeNonZero`, `getLabelSelector`, `labelSelectorAsSelector`), the dynamic
clientset (`resource`, `kind`, whose answers come from static discovery data), the resource
clients (`call` for Create, Update and Delete, `get`, `list`, `updateWithRetries`), the
label matching of a selector against the labels of a child (`selectorMatches`) and the webhook caller
(`callSyncHook`). -/
structure Platform (σ : Type) where
  timeNonZero : String → Bool
  getLabelSelector : Unstructured → Except Error LabelSelector
  labelSelectorAsSelector : LabelSelector → Except Error Selector
  resource : String → String → String → Except Error Client
  kind : String → String → String → Except Error Client
  call : σ → Op → σ × Option Error
  get : σ → Client → String → σ × Except Error Unstructured
  list : σ → Client → σ × Except Error (List Unstructured)
  updateWithRetries :
    σ → Client → Unstructured → (Unstructured → Bool × Unstructured) → σ × Option Error
  selectorMatches : Selector → Unstructured → Bool
  callSyncHook :
    σ → LambdaController → Unstructured → ChildMap → σ × Except Error SyncHookResponse

/-- An execution: the platform state it ends in, the child operations issued in order, each
with the error it returned, and the value the Go function returns. -/
structure Run (σ α : Type) where
  state : σ
  trace : List (Op × Option Error)
  value : α

/-- The operations of an execution, without their results. -/
def Run.ops {σ α : Type} (r : Run σ α) : List Op := r.trace.map Prod.fst

/-! ## The child map and its keys -/

/-- The Go call `strings.SplitN(s, ".", 2)` on the characters of `s`: the text before the
first `.` and the text after it, or `s` alone when it holds no `.`. -/
def splitN2 (s : List Char) : List (List Char) :=
  match s.dropWhile (fun c => c != '.') with
  | [] => [s]
  | _ :: after => [s.takeWhile (fun c => c != '.'), after]

/-- The function `parseChildMapKey`: `parts[1], parts[0]` of `strings.SplitN(key, ".", 2)`.
Go panics on `parts[1]` when the split has a single part. -/
def parseChildMapKey (key : String) : Outcome (String × String) :=
  let parts := (splitN2 key.data).map String.mk
  match parts.get? 1, parts.get? 0 with
  | some p1, some p0 => .returned (p1, p0)
  | _, _ => .panicked

/-- The key `fmt.Sprintf("%s.%s", kind, apiVersion)` of `makeChildMap` and `claimChildren`. -/
def childMapKey (kind apiVersion : String) : String := kind ++ "." ++ apiVersion

/-- The function `makeChildMap`: the webhook's flat list of children, grouped by key and
then by name. -/
def makeChildMap (list : List Unstructured) : ChildMap :=
  list.foldl
    (fun children child =>
      let apiVersion := getNestedString child.content ["apiVersion"]
      let kind := getNestedString child.content ["kind"]
      let key := childMapKey kind apiVersion
      let children :=
        match mapGet key children with
        | none => mapSet key [] children
        | some _ => children
      mapSet key (mapSet child.getName child ((mapGet key children).getD [])) children)
    []

/-! ## Diff-and-apply -/

section Reconcile

variable {σ : Type}

/-- The condition `desired == nil || desired[name] == nil` of `deleteChildren`. -/
def notDesired (desired : Option ObjMap) (name : String) : Bool :=
  match desired with
  | none => true
  | some d => (mapGet name d).isNone

/-- The `for name, obj := range observed` loop of `deleteChildren`; its value is `errs`. -/
def deleteChildrenLoop (P : Platform σ) (client : Client) (desired : Option ObjMap) :
    ObjMap → σ → Run σ (List Error)
  | [], s => ⟨s, [], []⟩
  | (name, obj) :: rest, s =>
    if obj.hasDeletionTimestamp P.timeNonZero then
      deleteChildrenLoop P client desired rest s
    else if notDesired desired name then
      let uid := obj.getUID
      let res := P.call s (.delete client name uid)
      let r := deleteChildrenLoop P client desired rest res.1
      match res.2 with
      | some err =>
        ⟨r.state, (.delete client name uid, some err) :: r.trace,
          .cantDelete obj.getKind obj.getNamespace obj.getName err :: r.value⟩
      | none => ⟨r.state, (.delete client name uid, none) :: r.trace, r.value⟩
    else
      deleteChildrenLoop P client desired rest s

/-- The function `deleteChildren`. `desired` is `none` for a nil map. -/
def deleteChildren (P : Platform σ) (client : Client) (_parent : Unstructured)
    (observed : ObjMap) (desired : Option ObjMap) (s : σ) : Run σ (Option Error) :=
  let r := deleteChildrenLoop P client desired observed s
  ⟨r.state, r.trace, newAggregate r.value⟩

/-- The object handed to `Create` in `updateChildren`: `controllerRef` is built and appended
to the owner references read from `metadata.ownerReferences`, and then
`k8s.SetNestedField(obj.UnstructuredContent(), "metadata", "ownerReferences")` is applied,
whose value argument is `"metadata"` and whose path is `ownerReferences`. -/
def objectToCreate (parent obj : Unstructured) : Unstructured :=
  let controllerRef : Value := .map [
    ("apiVersion", .str parent.getAPIVersion),
    ("kind", .str parent.getKind),
    ("name", .str parent.getName),
    ("uid", .str parent.getUID),
    ("controller", .bool true),
    ("blockOwnerDeletion", .bool true)]
  let ownerRefs : List Value :=
    match getNestedField obj.content ["metadata", "ownerReferences"] with
    | .slice refs => refs
    | _ => []
  let _ownerRefs := ownerRefs ++ [controllerRef]
  ⟨setNestedField obj.object (.str "metadata") ["ownerReferences"]⟩

/-- The `for name, obj := range desired` loop of `updateChildren`; its value is `errs`.
`observed` is `none` for a nil map. -/
def updateChildrenLoop (P : Platform σ) (client : Client) (parent : Unstructured)
    (observed : Option ObjMap) : ObjMap → σ → Run σ (List Error)
  | [], s => ⟨s, [], []⟩
  | (name, obj) :: rest, s =>
    match observed.bind (mapGet name) with
    | some oldObj =>
      if !Value.deepEqual obj.content oldObj.content then
        let res := P.call s (.update client obj)
        let r := updateChildrenLoop P client parent observed rest res.1
        match res.2 with
        | some err => ⟨r.state, (.update client obj, some err) :: r.trace, err :: r.value⟩
        | none => ⟨r.state, (.update client obj, none) :: r.trace, r.value⟩
      else
        updateChildrenLoop P client parent observed rest s
    | none =>
      let created := objectToCreate parent obj
      let res := P.call s (.create client created)
      let r := updateChildrenLoop P client parent observed rest res.1
      match res.2 with
      | some err => ⟨r.state, (.create client created, some err) :: r.trace, err :: r.value⟩
      | none => ⟨r.state, (.create client created, none) :: r.trace, r.value⟩

/-- The function `updateChildren`. -/
def updateChildren (P : Platform σ) (client : Client) (parent : Unstructured)
    (observed : Option ObjMap) (desired : ObjMap) (s : σ) : Run σ (Option Error) :=
  let r := updateChildrenLoop P client parent observed desired s
  ⟨r.state, r.trace, newAggregate r.value⟩

/-- The first loop of `manageChildren`, `for key, objects := range observedChildren`; its
value is `errs`, unless `parseChildMapKey` panics. -/
def manageChildrenDeletes (P : Platform σ) (parent : Unstructured)
    (desiredChildren : ChildMap) : ChildMap → σ → Run σ (Outcome (List Error))
  | [], s => ⟨s, [], .returned []⟩
  | (key, objects) :: rest, s =>
    match parseChildMapKey key with
    | .panicked => ⟨s, [], .panicked⟩
    | .returned (apiVersion, kind) =>
      match P.kind apiVersion kind parent.getNamespace with
      | .error err =>
        let r := manageChildrenDeletes P parent desiredChildren rest s
        ⟨r.state, r.trace, r.value.map (fun errs => err :: errs)⟩
      | .ok client =>
        let d := deleteChildren P client parent objects (mapGet key desiredChildren) s
        let r := manageChildrenDeletes P parent desiredChildren rest d.state
        ⟨r.state, d.trace ++ r.trace, r.value.map (fun errs => d.value.toList ++ errs)⟩

/-- The second loop of `manageChildren`, `for key, objects := range desiredChildren`. -/
def manageChildrenUpdates (P : Platform σ) (parent : Unstructured)
    (observedChildren : ChildMap) : ChildMap → σ → Run σ (Outcome (List Error))
  | [], s => ⟨s, [], .returned []⟩
  | (key, objects) :: rest, s =>
    match parseChildMapKey key with
    | .panicked => ⟨s, [], .panicked⟩
    | .returned (apiVersion, kind) =>
      match P.kind apiVersion kind parent.getNamespace with
      | .error err =>
        let r := manageChildrenUpdates P parent observedChildren rest s
        ⟨r.state, r.trace, r.value.map (fun errs => err :: errs)⟩
      | .ok client =>
        let u := updateChildren P client parent (mapGet key observedChildren) objects s
        let r := manageChildrenUpdates P parent observedChildren rest u.state
        ⟨r.state, u.trace ++ r.trace, r.value.map (fun errs => u.value.toList ++ errs)⟩

/-- The function `manageChildren`: the delete loop, the create-or-update loop, and the
aggregate of the errors of both. -/
def manageChildren (P : Platform σ) (_lc : LambdaController) (parent : Unstructured)
    (observedChildren desiredChildren : ChildMap) (s : σ) : Run σ (Outcome (Option Error)) :=
  let r1 := manageChildrenDeletes P parent desiredChildren observedChildren s
  match r1.value with
  | .panicked => ⟨r1.state, r1.trace, .panicked⟩
  | .returned errs1 =>
    let r2 := manageChildrenUpdates P parent observedChildren desiredChildren r1.state
    ⟨r2.state, r1.trace ++ r2.trace, r2.value.map (fun errs2 => newAggregate (errs1 ++ errs2))⟩

/-! ## The per-parent pass -/

/-- The closure given to `k8s.RecheckDeletionTimestamp` in `claimChildren`: an uncached read
of the parent, refused when the uid read differs from the uid of `parent`. -/
def canAdoptFunc (P : Platform σ) (parentResource : APIResource) (parentClient : Client)
    (parent : Unstructured) (s : σ) : σ × Except Error Unstructured :=
  let g := P.get s parentClient parent.getName
  match g.2 with
  | .error err => (g.1, .error err)
  | .ok fresh =>
    if fresh.getUID != parent.getUID then
      (g.1, .error (.parentGone parentResource.kind parent.getNamespace parent.getName
        fresh.getUID parent.getUID))
    else (g.1, .ok fresh)

/-- Modelled from the spec: `k8s.RecheckDeletionTimestamp` of `third_party/kubernetes`,
which is not among the sources. It turns the read of the parent into the can-adopt
precondition, which succeeds iff "the read succeeds" and "the refreshed Parent has no
`deletionTimestamp`". -/
def recheckDeletionTimestamp (P : Platform σ) (getObject : σ → σ × Except Error Unstructured)
    (s : σ) : σ × Option Error :=
  let g := getObject s
  match g.2 with
  | .error err => (g.1, some err)
  | .ok fresh =>
    if fresh.hasDeletionTimestamp P.timeNonZero then
      (g.1, some (.api "the parent is being deleted"))
    else (g.1, none)

/-- Modelled from the spec: the controlling owner of a child, "the owner-references entry
with `controller=true`", if the child has one. -/
def controllerRefOf (child : Unstructured) : Option Value :=
  match getNestedField child.content ["metadata", "ownerReferences"] with
  | .slice refs =>
    refs.find? (fun ref => Value.deepEqual (getNestedField ref ["controller"]) (.bool true))
  | _ => none

/-- Modelled from the spec: whether an owner reference "references the Parent's
`(apiVersion, kind, name, uid)`", the apiVersion and kind being those of the parent
`GroupVersionKind`. -/
def refersToParent (ref : Value) (parentResource : APIResource) (parent : Unstructured) :
    Bool :=
  getNestedString ref ["apiVersion"] == parentResource.apiVersion &&
    getNestedString ref ["kind"] == parentResource.kind &&
    getNestedString ref ["name"] == parent.getName &&
    getNestedString ref ["uid"] == parent.getUID

/-- Modelled from the spec: the child as it is written to release it, "remove the controller
owner ref": its owner references without the controller reference to the parent. -/
def releasedChild (parentResource : APIResource) (parent child : Unstructured) :
    Unstructured :=
  let refs : List Value :=
    match getNestedField child.content ["metadata", "ownerReferences"] with
    | .slice refs => refs
    | _ => []
  let kept := refs.filter (fun ref =>
    !(Value.deepEqual (getNestedField ref ["controller"]) (.bool true) &&
      refersToParent ref parentResource parent))
  ⟨setNestedField child.object (.slice kept) ["metadata", "ownerReferences"]⟩

/-- Modelled from the spec: the child as it is written to adopt it, "add a controller owner
ref pointing at the Parent with `controller=true, blockOwnerDeletion=true`". -/
def adoptedChild (parentResource : APIResource) (parent child : Unstructured) :
    Unstructured :=
  let refs : List Value :=
    match getNestedField child.content ["metadata", "ownerReferences"] with
    | .slice refs => refs
    | _ => []
  let controllerRef : Value := .map [
    ("apiVersion", .str parentResource.apiVersion),
    ("kind", .str parentResource.kind),
    ("name", .str parent.getName),
    ("uid", .str parent.getUID),
    ("controller", .bool true),
    ("blockOwnerDeletion", .bool true)]
  ⟨setNestedField child.object (.slice (refs ++ [controllerRef]))
    ["metadata", "ownerReferences"]⟩

/-- Modelled from the spec: the classification of the candidates by the controller-ref
manager (`newDynamicControllerRefManager(...).claimChildren`), which is not among the
sources, after the decision table of the specification. A child controlled by this parent is
kept when the selector matches and released by an `Update` when it does not; a child without
controlling owner that matches is adopted by an `Update` once the can-adopt precondition has
succeeded; every other child is ignored. A released child, and a child whose adoption fails,
is left out of the claimed children; no failure aborts the pass. The value is the list of
claimed children. -/
def crmClaimLoop (P : Platform σ) (childClient : Client) (parentResource : APIResource)
    (parent : Unstructured) (selector : Selector) (canAdopt : σ → σ × Option Error) :
    List Unstructured → σ → Run σ (List Unstructured)
  | [], s => ⟨s, [], []⟩
  | child :: rest, s =>
    match controllerRefOf child with
    | some ref =>
      if refersToParent ref parentResource parent then
        if P.selectorMatches selector child then
          let r := crmClaimLoop P childClient parentResource parent selector canAdopt rest s
          ⟨r.state, r.trace, child :: r.value⟩
        else
          let released := releasedChild parentResource parent child
          let res := P.call s (.update childClient released)
          let r := crmClaimLoop P childClient parentResource parent selector canAdopt rest
            res.1
          ⟨r.state, (.update childClient released, res.2) :: r.trace, r.value⟩
      else
        crmClaimLoop P childClient parentResource parent selector canAdopt rest s
    | none =>
      if P.selectorMatches selector child then
        let pre := canAdopt s
        match pre.2 with
        | some _ =>
          crmClaimLoop P childClient parentResource parent selector canAdopt rest pre.1
        | none =>
          let adopted := adoptedChild parentResource parent child
          let res := P.call pre.1 (.update childClient adopted)
          let r := crmClaimLoop P childClient parentResource parent selector canAdopt rest
            res.1
          match res.2 with
          | some err => ⟨r.state, (.update childClient adopted, some err) :: r.trace, r.value⟩
          | none => ⟨r.state, (.update childClient adopted, none) :: r.trace,
              adopted :: r.value⟩
      else
        crmClaimLoop P childClient parentResource parent selector canAdopt rest s

/-- Modelled from the spec: the call `crm.claimChildren(childList.Items)` of the
controller-ref manager, which is not among the sources. "Adoption and release are
best-effort", so it hands back the claimed children and no error. -/
def crmClaimChildren (P : Platform σ) (childClient : Client) (parentResource : APIResource)
    (parent : Unstructured) (selector : Selector) (canAdopt : σ → σ × Option Error)
    (items : List Unstructured) (s : σ) : Run σ (Except Error (List Unstructured)) :=
  let r := crmClaimLoop P childClient parentResource parent selector canAdopt items s
  ⟨r.state, r.trace, .ok r.value⟩

/-- The inner loop of `claimChildren`, `for _, resourceName := range group.Resources`, which
lists the children of one resource, claims them and files them under their key. The trace
holds the child calls of the controller-ref manager. -/
def claimChildrenResources (P : Platform σ) (parentResource : APIResource)
    (parent : Unstructured) (selector : Selector)
    (canAdopt : σ → σ × Option Error) (apiVersion : String) :
    List String → ChildMap → σ → Run σ (Except Error ChildMap)
  | [], groups, s => ⟨s, [], .ok groups⟩
  | resourceName :: rest, groups, s =>
    match P.resource apiVersion resourceName parent.getNamespace with
    | .error err => ⟨s, [], .error err⟩
    | .ok childClient =>
      let l := P.list s childClient
      match l.2 with
      | .error err => ⟨l.1, [], .error (.cantList childClient.kind err)⟩
      | .ok items =>
        let c := crmClaimChildren P childClient parentResource parent selector canAdopt items
          l.1
        match c.value with
        | .error err => ⟨c.state, c.trace, .error (.cantClaim childClient.kind err)⟩
        | .ok children =>
          let groupMap : ObjMap :=
            children.foldl (fun m child => mapSet child.getName child m) []
          let r := claimChildrenResources P parentResource parent selector canAdopt
            apiVersion rest
            (mapSet (childMapKey childClient.kind apiVersion) groupMap groups) c.state
          ⟨r.state, c.trace ++ r.trace, r.value⟩

/-- The outer loop of `claimChildren`, `for _, group := range lc.Spec.ChildResources`. -/
def claimChildrenGroups (P : Platform σ) (parentResource : APIResource)
    (parent : Unstructured) (selector : Selector)
    (canAdopt : σ → σ × Option Error) :
    List ResourceGroup → ChildMap → σ → Run σ (Except Error ChildMap)
  | [], groups, s => ⟨s, [], .ok groups⟩
  | group :: rest, groups, s =>
    let r := claimChildrenResources P parentResource parent selector canAdopt
      group.apiVersion group.resources groups s
    match r.value with
    | .error err => ⟨r.state, r.trace, .error err⟩
    | .ok groups' =>
      let r' := claimChildrenGroups P parentResource parent selector canAdopt rest groups'
        r.state
      ⟨r'.state, r.trace ++ r'.trace, r'.value⟩

/-- The function `claimChildren`. Its trace holds the child calls by which the
controller-ref manager adopts or releases children. -/
def claimChildren (P : Platform σ) (lc : LambdaController) (parentResource : APIResource)
    (parent : Unstructured) (selector : Selector) (s : σ) : Run σ (Except Error ChildMap) :=
  match P.resource parentResource.apiVersion parentResource.name parent.getNamespace with
  | .error err => ⟨s, [], .error err⟩
  | .ok parentClient =>
    claimChildrenGroups P parentResource parent selector
      (recheckDeletionTimestamp P (canAdoptFunc P parentResource parentClient parent))
      lc.childResources [] s

/-- The mutate callback that `updateParentStatus` gives to `UpdateWithRetries`: the flag it
returns and the object it leaves behind. -/
def updateParentStatusMutate (status : Option Fields) (obj : Unstructured) :
    Bool × Unstructured :=
  let oldStatus := getNestedField obj.content ["status"]
  if Value.deepEqual oldStatus (mapValue status) then (false, obj)
  else (true, ⟨setNestedField obj.object (mapValue status) ["status"]⟩)

/-- The function `updateParentStatus`. -/
def updateParentStatus (P : Platform σ) (_lc : LambdaController) (parentResource : APIResource)
    (parent : Unstructured) (status : Option Fields) (s : σ) : σ × Option Error :=
  match P.resource parentResource.apiVersion parentResource.name parent.getNamespace with
  | .error err => (s, some err)
  | .ok parentClient =>
    P.updateWithRetries s parentClient parent (updateParentStatusMutate status)

/-- The function `syncParentResource`: label selector, claim, webhook, child reconciliation
unless the parent is being deleted, then the status update, then the result. The trace holds
the child calls of the claim step followed by those of `manageChildren`. A panic in
`manageChildren` ends the pass. -/
def syncParentResource (P : Platform σ) (lc : LambdaController) (parentResource : APIResource)
    (parent : Unstructured) (s : σ) : Run σ (Outcome (Option Error)) :=
  match P.getLabelSelector parent with
  | .error _ =>
    ⟨s, [], .returned (some
      (.cantGetSelector parentResource.kind parent.getNamespace parent.getName))⟩
  | .ok labelSelector =>
    match P.labelSelectorAsSelector labelSelector with
    | .error err => ⟨s, [], .returned (some (.cantConvertSelector labelSelector err))⟩
    | .ok selector =>
      let c := claimChildren P lc parentResource parent selector s
      match c.value with
      | .error err => ⟨c.state, c.trace, .returned (some (.cantClaimChildren err))⟩
      | .ok children =>
        let h := P.callSyncHook c.state lc parent children
        match h.2 with
        | .error err =>
          ⟨h.1, c.trace, .returned (some
            (.hookFailed parentResource.kind parent.getNamespace parent.getName err))⟩
        | .ok syncResult =>
          let m : Run σ (Outcome (Option Error)) :=
            if !parent.hasDeletionTimestamp P.timeNonZero then
              manageChildren P lc parent children (makeChildMap syncResult.children) h.1
            else ⟨h.1, [], .returned none⟩
          match m.value with
          | .panicked => ⟨m.state, c.trace ++ m.trace, .panicked⟩
          | .returned err =>
            let manageErr : Option Error :=
              err.map (.cantReconcile parentResource.kind parent.getNamespace parent.getName)
            let u := updateParentStatus P lc parentResource parent syncResult.status m.state
            match u.2 with
            | some err =>
              ⟨u.1, c.trace ++ m.trace, .returned (some
                (.cantUpdateStatus parentResource.kind parent.getNamespace parent.getName err))⟩
            | none => ⟨u.1, c.trace ++ m.trace, .returned manageErr⟩

end Reconcile

/-! ## What the specification asks of one pass -/

section Wanted

variable {σ : Type}

/-- The delete that `deleteChildren` issues for one entry of the observed map, if any. -/
def deleteFor (timeNonZero : String → Bool) (client : Client) (desired : Option ObjMap)
    (e : String × Unstructured) : Option Op :=
  if !e.2.hasDeletionTimestamp timeNonZero && (desired.bind (mapGet e.1)).isNone then
    some (.delete client e.1 e.2.getUID)
  else none

/-- The call that `updateChildren` issues for one entry of the desired map, if any: an
`Update` when the name is observed and the contents differ, a `Create` when the name is not
observed. -/
def applyFor (client : Client) (parent : Unstructured) (observed : Option ObjMap)
    (e : String × Unstructured) : Option Op :=
  match observed.bind (mapGet e.1) with
  | some oldObj =>
    if Value.deepEqual e.2.content oldObj.content then none else some (.update client e.2)
  | none => some (.create client (objectToCreate parent e.2))

/-- Whether some call of a trace returned an error. -/
def anyFailed (trace : List (Op × Option Error)) : Bool := trace.any (fun e => e.2.isSome)

/-- Whether the client lookup of `manageChildren` fails for some key of the map. -/
def anyLookupFailed (P : Platform σ) (parent : Unstructured) (m : ChildMap) : Bool :=
  m.any (fun e =>
    match parseChildMapKey e.1 with
    | .returned (apiVersion, kind) =>
      (match P.kind apiVersion kind parent.getNamespace with
       | .error _ => true
       | .ok _ => false)
    | .panicked => false)

namespace Value
mutual
/-- Whether the value is a well-formed Go value: no map in the tree holds a key twice. -/
def wf : Value → Bool
  | .slice xs => wfSlice xs
  | .map m => decide (m.map Prod.fst).Nodup && wfFields m
  | _ => true
/-- Whether all elements of a slice are well formed. -/
def wfSlice : List Value → Bool
  | [] => true
  | x :: xs => wf x && wfSlice xs
/-- Whether all values of a map are well formed. -/
def wfFields : List (String × Value) → Bool
  | [] => true
  | (_, v) :: rest => wf v && wfFields rest
end
end Value

/-- Go `reflect.DeepEqual` on two non-nil `map[string]*unstructured.Unstructured`: the same
length, and every name of the first holds, in the second, an object with deep-equal content. -/
def objMapDeepEqual (a b : ObjMap) : Bool :=
  a.length == b.length &&
    a.all (fun e =>
      match mapGet e.1 b with
      | some o => Value.deepEqual e.2.content o.content
      | none => false)

/-- Go `reflect.DeepEqual` on two non-nil `childMap`s. -/
def childMapDeepEqual (a b : ChildMap) : Bool :=
  a.length == b.length &&
    a.all (fun e =>
      match mapGet e.1 b with
      | some m => objMapDeepEqual e.2 m
      | none => false)

/-- Whether the association list stands for a Go map of children: no name twice, and every
content tree well formed. -/
def objMapWf (m : ObjMap) : Bool :=
  decide (mapKeys m).Nodup && m.all (fun e => e.2.content.wf)

/-- Whether the association list stands for a Go `childMap`: no key twice, and every map of
children well formed. -/
def childMapWf (c : ChildMap) : Bool :=
  decide (mapKeys c).Nodup && c.all (fun e => objMapWf e.2)

end Wanted

/-! ## Concrete inputs -/

/-- The kind of a resource, for the resources of the concrete runs. -/
def exampleKindOf (resource : String) : String :=
  if resource = "pods" then "Pod" else if resource = "catsets" then "CatSet" else resource

/-- A platform for concrete runs. Its state counts the calls made. Child calls fail where
`failCalls` says so, the status update fails when `statusFails` is set, the kinds in
`unknownKinds` have no client, nothing is listed, a selector matches the children that carry
each of its `matchLabels`, and the webhook answers `resp`. -/
def examplePlatform (failCalls : Op → Bool) (statusFails : Bool) (unknownKinds : List String)
    (resp : SyncHookResponse) : Platform Nat where
  timeNonZero := fun t => t != ""
  getLabelSelector := fun u => .ok ⟨getNestedField u.content ["spec", "selector"]⟩
  labelSelectorAsSelector := fun l => .ok ⟨l⟩
  resource := fun av r ns => .ok ⟨av, exampleKindOf r, r, ns⟩
  kind := fun av k ns =>
    if unknownKinds.contains k then .error (.api "no such kind") else .ok ⟨av, k, k, ns⟩
  call := fun s op => (s + 1, if failCalls op then some (.api "refused") else none)
  get := fun s _ _ => (s, .error (.api "not found"))
  list := fun s _ => (s, .ok [])
  updateWithRetries :=
    fun s _ _ _ => (s + 1, if statusFails then some (.api "conflict") else none)
  selectorMatches := fun selector child =>
    match getNestedField selector.source.raw ["matchLabels"] with
    | .map wanted =>
      wanted.all (fun kv =>
        Value.deepEqual (getNestedField child.content ["metadata", "labels", kv.1]) kv.2)
    | _ => true
  callSyncHook := fun s _ _ _ => (s, .ok resp)

/-- A parent `CatSet` named `cs` in namespace `ns`, with uid `u-1`. -/
def exampleParent : Unstructured :=
  ⟨[("apiVersion", .str "ctl.example.com/v1"), ("kind", .str "CatSet"),
    ("metadata", .map [("namespace", .str "ns"), ("name", .str "cs"), ("uid", .str "u-1")]),
    ("spec", .map [("selector", .map [])]),
    ("status", .map [("replicas", .int 1)])]⟩

/-- The static metadata of the parent kind. -/
def exampleParentResource : APIResource := ⟨"ctl.example.com/v1", "catsets", "CatSet"⟩

/-- A configuration with `Pod` children. -/
def exampleController : LambdaController :=
  ⟨⟨"ctl.example.com/v1", "catsets"⟩, [⟨"v1", ["pods"]⟩], "http://hook/sync"⟩

/-- A `Pod` as the webhook returns it: `apiVersion`, `kind` and `metadata.name`. -/
def examplePod (name : String) : Unstructured :=
  ⟨[("apiVersion", .str "v1"), ("kind", .str "Pod"), ("metadata", .map [("name", .str name)])]⟩

/-- A `Pod` as observed on the platform, with its uid and `spec.replicas`. -/
def exampleObservedPod (name uid : String) (replicas : Int) : Unstructured :=
  ⟨[("apiVersion", .str "v1"), ("kind", .str "Pod"),
    ("metadata", .map [("name", .str name), ("uid", .str uid)]),
    ("spec", .map [("replicas", .int replicas)])]⟩

/-- The client of `Pod` children in namespace `ns`. -/
def examplePodClient : Client := ⟨"v1", "Pod", "Pod", "ns"⟩

/-- The webhook response of the concrete runs: a new status and one desired `Pod`. -/
def exampleResponse : SyncHookResponse :=
  ⟨some [("replicas", .int 2)], [examplePod "p-1"]⟩

/-! ## Properties -/

section Lemmas

variable {σ : Type}

theorem dropWhile_notDot_append (pre post : List Char) (h : '.' ∉ pre) :
    (pre ++ '.' :: post).dropWhile (fun c => c != '.') = '.' :: post := by
  induction pre with
  | nil => simp [List.dropWhile]
  | cons c cs ih =>
    have hc : c ≠ '.' := fun e => h (by simp [e])
    have hcs : '.' ∉ cs := fun e => h (by simp [e])
    have hb : (c != '.') = true := by simp [hc]
    simp [List.dropWhile, hb, ih hcs]

theorem takeWhile_notDot_append (pre post : List Char) (h : '.' ∉ pre) :
    (pre ++ '.' :: post).takeWhile (fun c => c != '.') = pre := by
  induction pre with
  | nil => simp [List.takeWhile]
  | cons c cs ih =>
    have hc : c ≠ '.' := fun e => h (by simp [e])
    have hcs : '.' ∉ cs := fun e => h (by simp [e])
    have hb : (c != '.') = true := by simp [hc]
    simp [List.takeWhile, hb, ih hcs]

theorem dropWhile_notDot_eq_nil (s : List Char) (h : '.' ∉ s) :
    s.dropWhile (fun c => c != '.') = [] := by
  induction s with
  | nil => rfl
  | cons c cs ih =>
    have hc : c ≠ '.' := fun e => h (by simp [e])
    have hcs : '.' ∉ cs := fun e => h (by simp [e])
    have hb : (c != '.') = true := by simp [hc]
    simp [List.dropWhile, hb, ih hcs]

theorem splitN2_of_mem (s : List Char) (h : '.' ∈ s) :
    ∃ pre post, s = pre ++ '.' :: post ∧ '.' ∉ pre := by
  induction s with
  | nil => simp at h
  | cons c cs ih =>
    by_cases hc : c = '.'
    · exact ⟨[], cs, by simp [hc], by simp⟩
    · have : '.' ∈ cs := by
        rcases List.mem_cons.mp h with e | e
        · exact absurd e.symm hc
        · exact e
      obtain ⟨pre, post, e, hp⟩ := ih this
      refine ⟨c :: pre, post, by simp [e], ?_⟩
      intro hm
      rcases List.mem_cons.mp hm with e' | e'
      · exact hc e'.symm
      · exact hp e'

theorem childMapKey_data (kind apiVersion : String) :
    (childMapKey kind apiVersion).data = kind.data ++ '.' :: apiVersion.data := by
  simp [childMapKey, String.data_append]

theorem parseChildMapKey_of_split (key : String) (pre post : List Char)
    (e : key.data = pre ++ '.' :: post) (h : '.' ∉ pre) :
    parseChildMapKey key = .returned (String.mk post, String.mk pre) := by
  simp [parseChildMapKey, splitN2, e, dropWhile_notDot_append pre post h,
    takeWhile_notDot_append pre post h]

theorem parseChildMapKey_of_not_mem (key : String) (h : '.' ∉ key.data) :
    parseChildMapKey key = .panicked := by
  simp [parseChildMapKey, splitN2, dropWhile_notDot_eq_nil key.data h]

theorem notDesired_eq (desired : Option ObjMap) (name : String) :
    notDesired desired name = (desired.bind (mapGet name)).isNone := by
  cases desired <;> simp [notDesired]

theorem deleteChildrenLoop_ops (P : Platform σ) (client : Client) (desired : Option ObjMap)
    (observed : ObjMap) (s : σ) :
    (deleteChildrenLoop P client desired observed s).ops =
      observed.filterMap (deleteFor P.timeNonZero client desired) := by
  induction observed generalizing s with
  | nil => rfl
  | cons e rest ih =>
    obtain ⟨name, obj⟩ := e
    unfold deleteChildrenLoop
    by_cases hd : obj.hasDeletionTimestamp P.timeNonZero = true
    · simp [hd, deleteFor, ih]
    · by_cases hn : notDesired desired name = true
      · have hn' := hn
        rw [notDesired_eq] at hn'
        simp only [hd, hn, if_true, Bool.false_eq_true, if_false]
        cases hr : (P.call s (.delete client name obj.getUID)).2 <;>
          simp [Run.ops, deleteFor, hd, hn', List.filterMap_cons] <;>
          exact ih _
      · have hn' := hn
        rw [notDesired_eq] at hn'
        simp [hd, hn, deleteFor, hn', ih, List.filterMap_cons]



theorem updateChildrenLoop_ops (P : Platform σ) (client : Client) (parent : Unstructured)
    (observed : Option ObjMap) (desired : ObjMap) (s : σ) :
    (updateChildrenLoop P client parent observed desired s).ops =
      desired.filterMap (applyFor client parent observed) := by
  induction desired generalizing s with
  | nil => rfl
  | cons e rest ih =>
    obtain ⟨name, obj⟩ := e
    unfold updateChildrenLoop
    cases ho : observed.bind (mapGet name) with
    | some oldObj =>
      by_cases heq : Value.deepEqual obj.content oldObj.content = true
      · simp [heq, applyFor, ho, ih, List.filterMap_cons]
      · simp only [heq, Bool.not_false, Bool.false_eq_true, if_true]
        cases hr : (P.call s (.update client obj)).2 <;>
          simp [Run.ops, applyFor, ho, heq, List.filterMap_cons] <;>
          exact ih _
    | none =>
      simp only []
      cases hr : (P.call s (.create client (objectToCreate parent obj))).2 <;>
        simp [Run.ops, applyFor, ho, List.filterMap_cons] <;>
        exact ih _

theorem deleteChildrenLoop_errs (P : Platform σ) (client : Client) (desired : Option ObjMap)
    (observed : ObjMap) (s : σ) :
    ((deleteChildrenLoop P client desired observed s).value = [] ↔
      anyFailed (deleteChildrenLoop P client desired observed s).trace = false) := by
  induction observed generalizing s with
  | nil => simp [deleteChildrenLoop, anyFailed]
  | cons e rest ih =>
    obtain ⟨name, obj⟩ := e
    unfold deleteChildrenLoop
    by_cases hd : obj.hasDeletionTimestamp P.timeNonZero = true
    · simp [hd, ih]
    · by_cases hn : notDesired desired name = true
      · simp only [hd, hn, if_true, Bool.false_eq_true, if_false]
        cases hr : (P.call s (.delete client name obj.getUID)).2
        · have := ih (P.call s (.delete client name obj.getUID)).1
          simpa [anyFailed] using this
        · simp [anyFailed]
      · simp [hd, hn, ih]

theorem updateChildrenLoop_errs (P : Platform σ) (client : Client) (parent : Unstructured)
    (observed : Option ObjMap) (desired : ObjMap) (s : σ) :
    ((updateChildrenLoop P client parent observed desired s).value = [] ↔
      anyFailed (updateChildrenLoop P client parent observed desired s).trace = false) := by
  induction desired generalizing s with
  | nil => simp [updateChildrenLoop, anyFailed]
  | cons e rest ih =>
    obtain ⟨name, obj⟩ := e
    unfold updateChildrenLoop
    cases ho : observed.bind (mapGet name) with
    | some oldObj =>
      by_cases heq : Value.deepEqual obj.content oldObj.content = true
      · simp [heq, ih]
      · simp only [heq, Bool.not_false, Bool.false_eq_true, if_true]
        cases hr : (P.call s (.update client obj)).2
        · have := ih (P.call s (.update client obj)).1
          simpa [anyFailed] using this
        · simp [anyFailed]
    | none =>
      simp only []
      cases hr : (P.call s (.create client (objectToCreate parent obj))).2
      · have := ih (P.call s (.create client (objectToCreate parent obj))).1
        simpa [anyFailed] using this
      · simp [anyFailed]

theorem newAggregate_eq_none (errs : List Error) : newAggregate errs = none ↔ errs = [] := by
  cases errs <;> simp [newAggregate]


theorem deleteFor_isDelete (t : String → Bool) (client : Client) (desired : Option ObjMap)
    (e : String × Unstructured) (op : Op) (h : deleteFor t client desired e = some op) :
    op.isDelete = true := by
  unfold deleteFor at h
  split at h
  · cases h; rfl
  · cases h

theorem applyFor_not_isDelete (client : Client) (parent : Unstructured)
    (observed : Option ObjMap) (e : String × Unstructured) (op : Op)
    (h : applyFor client parent observed e = some op) : op.isDelete = false := by
  unfold applyFor at h
  split at h
  · split at h
    · cases h
    · cases h; rfl
  · cases h; rfl

theorem deleteChildren_ops (P : Platform σ) (client : Client) (parent : Unstructured)
    (observed : ObjMap) (desired : Option ObjMap) (s : σ) :
    (deleteChildren P client parent observed desired s).ops =
      observed.filterMap (deleteFor P.timeNonZero client desired) :=
  deleteChildrenLoop_ops P client desired observed s

theorem updateChildren_ops (P : Platform σ) (client : Client) (parent : Unstructured)
    (observed : Option ObjMap) (desired : ObjMap) (s : σ) :
    (updateChildren P client parent observed desired s).ops =
      desired.filterMap (applyFor client parent observed) :=
  updateChildrenLoop_ops P client parent observed desired s

theorem manageChildrenDeletes_panicked (P : Platform σ) (parent : Unstructured)
    (desiredChildren rest : ChildMap) (key : String) (objects : ObjMap) (s : σ)
    (hp : parseChildMapKey key = .panicked) :
    manageChildrenDeletes P parent desiredChildren ((key, objects) :: rest) s =
      ⟨s, [], .panicked⟩ := by
  rw [manageChildrenDeletes]; simp only [hp]

theorem manageChildrenDeletes_error (P : Platform σ) (parent : Unstructured)
    (desiredChildren rest : ChildMap) (key : String) (objects : ObjMap) (s : σ)
    (apiVersion kind : String) (err : Error)
    (hp : parseChildMapKey key = .returned (apiVersion, kind))
    (hk : P.kind apiVersion kind parent.getNamespace = .error err) :
    manageChildrenDeletes P parent desiredChildren ((key, objects) :: rest) s =
      ⟨(manageChildrenDeletes P parent desiredChildren rest s).state,
       (manageChildrenDeletes P parent desiredChildren rest s).trace,
       (manageChildrenDeletes P parent desiredChildren rest s).value.map
         (fun errs => err :: errs)⟩ := by
  rw [manageChildrenDeletes]; simp only [hp, hk]

theorem manageChildrenDeletes_ok (P : Platform σ) (parent : Unstructured)
    (desiredChildren rest : ChildMap) (key : String) (objects : ObjMap) (s : σ)
    (apiVersion kind : String) (client : Client)
    (hp : parseChildMapKey key = .returned (apiVersion, kind))
    (hk : P.kind apiVersion kind parent.getNamespace = .ok client) :
    manageChildrenDeletes P parent desiredChildren ((key, objects) :: rest) s =
      ⟨(manageChildrenDeletes P parent desiredChildren rest
          (deleteChildren P client parent objects (mapGet key desiredChildren) s).state).state,
       (deleteChildren P client parent objects (mapGet key desiredChildren) s).trace ++
         (manageChildrenDeletes P parent desiredChildren rest
          (deleteChildren P client parent objects (mapGet key desiredChildren) s).state).trace,
       (manageChildrenDeletes P parent desiredChildren rest
          (deleteChildren P client parent objects (mapGet key desiredChildren) s).state).value.map
         (fun errs =>
           (deleteChildren P client parent objects (mapGet key desiredChildren) s).value.toList
             ++ errs)⟩ := by
  rw [manageChildrenDeletes]; simp only [hp, hk]

theorem manageChildrenUpdates_panicked (P : Platform σ) (parent : Unstructured)
    (observedChildren rest : ChildMap) (key : String) (objects : ObjMap) (s : σ)
    (hp : parseChildMapKey key = .panicked) :
    manageChildrenUpdates P parent observedChildren ((key, objects) :: rest) s =
      ⟨s, [], .panicked⟩ := by
  rw [manageChildrenUpdates]; simp only [hp]

theorem manageChildrenUpdates_error (P : Platform σ) (parent : Unstructured)
    (observedChildren rest : ChildMap) (key : String) (objects : ObjMap) (s : σ)
    (apiVersion kind : String) (err : Error)
    (hp : parseChildMapKey key = .returned (apiVersion, kind))
    (hk : P.kind apiVersion kind parent.getNamespace = .error err) :
    manageChildrenUpdates P parent observedChildren ((key, objects) :: rest) s =
      ⟨(manageChildrenUpdates P parent observedChildren rest s).state,
       (manageChildrenUpdates P parent observedChildren rest s).trace,
       (manageChildrenUpdates P parent observedChildren rest s).value.map
         (fun errs => err :: errs)⟩ := by
  rw [manageChildrenUpdates]; simp only [hp, hk]

theorem manageChildrenUpdates_ok (P : Platform σ) (parent : Unstructured)
    (observedChildren rest : ChildMap) (key : String) (objects : ObjMap) (s : σ)
    (apiVersion kind : String) (client : Client)
    (hp : parseChildMapKey key = .returned (apiVersion, kind))
    (hk : P.kind apiVersion kind parent.getNamespace = .ok client) :
    manageChildrenUpdates P parent observedChildren ((key, objects) :: rest) s =
      ⟨(manageChildrenUpdates P parent observedChildren rest
          (updateChildren P client parent (mapGet key observedChildren) objects s).state).state,
       (updateChildren P client parent (mapGet key observedChildren) objects s).trace ++
         (manageChildrenUpdates P parent observedChildren rest
          (updateChildren P client parent (mapGet key observedChildren) objects s).state).trace,
       (manageChildrenUpdates P parent observedChildren rest
          (updateChildren P client parent (mapGet key observedChildren) objects s).state).value.map
         (fun errs =>
           (updateChildren P client parent (mapGet key observedChildren) objects s).value.toList
             ++ errs)⟩ := by
  rw [manageChildrenUpdates]; simp only [hp, hk]

theorem manageChildrenDeletes_isDelete (P : Platform σ) (parent : Unstructured)
    (desiredChildren observedChildren : ChildMap) (s : σ) :
    ∀ op ∈ (manageChildrenDeletes P parent desiredChildren observedChildren s).ops,
      op.isDelete = true := by
  induction observedChildren generalizing s with
  | nil => simp [manageChildrenDeletes, Run.ops]
  | cons e rest ih =>
    obtain ⟨key, objects⟩ := e
    cases hp : parseChildMapKey key with
    | panicked => simp [manageChildrenDeletes_panicked _ _ _ _ _ _ _ hp, Run.ops]
    | returned pr =>
      obtain ⟨apiVersion, kind⟩ := pr
      cases hk : P.kind apiVersion kind parent.getNamespace with
      | error err =>
        rw [manageChildrenDeletes_error _ _ _ _ _ _ _ _ _ _ hp hk]
        exact ih s
      | ok client =>
        rw [manageChildrenDeletes_ok _ _ _ _ _ _ _ _ _ _ hp hk]
        intro op hop
        simp only [Run.ops, List.map_append] at hop
        rcases List.mem_append.mp hop with h | h
        · have hd := deleteChildren_ops P client parent objects (mapGet key desiredChildren) s
          simp only [Run.ops] at hd
          rw [hd] at h
          obtain ⟨e, _, he⟩ := List.mem_filterMap.mp h
          exact deleteFor_isDelete _ _ _ _ _ he
        · exact ih _ op h

theorem manageChildrenUpdates_not_isDelete (P : Platform σ) (parent : Unstructured)
    (observedChildren desiredChildren : ChildMap) (s : σ) :
    ∀ op ∈ (manageChildrenUpdates P parent observedChildren desiredChildren s).ops,
      op.isDelete = false := by
  induction desiredChildren generalizing s with
  | nil => simp [manageChildrenUpdates, Run.ops]
  | cons e rest ih =>
    obtain ⟨key, objects⟩ := e
    cases hp : parseChildMapKey key with
    | panicked => simp [manageChildrenUpdates_panicked _ _ _ _ _ _ _ hp, Run.ops]
    | returned pr =>
      obtain ⟨apiVersion, kind⟩ := pr
      cases hk : P.kind apiVersion kind parent.getNamespace with
      | error err =>
        rw [manageChildrenUpdates_error _ _ _ _ _ _ _ _ _ _ hp hk]
        exact ih s
      | ok client =>
        rw [manageChildrenUpdates_ok _ _ _ _ _ _ _ _ _ _ hp hk]
        intro op hop
        simp only [Run.ops, List.map_append] at hop
        rcases List.mem_append.mp hop with h | h
        · have hd := updateChildren_ops P client parent (mapGet key observedChildren) objects s
          simp only [Run.ops] at hd
          rw [hd] at h
          obtain ⟨e, _, he⟩ := List.mem_filterMap.mp h
          exact applyFor_not_isDelete _ _ _ _ _ he
        · exact ih _ op h

theorem manageChildren_trace (P : Platform σ) (lc : LambdaController) (parent : Unstructured)
    (observedChildren desiredChildren : ChildMap) (s : σ) :
    (manageChildren P lc parent observedChildren desiredChildren s).trace =
      (manageChildrenDeletes P parent desiredChildren observedChildren s).trace ++
      (match (manageChildrenDeletes P parent desiredChildren observedChildren s).value with
       | .panicked => []
       | .returned _ => (manageChildrenUpdates P parent observedChildren desiredChildren
          (manageChildrenDeletes P parent desiredChildren observedChildren s).state).trace) := by
  unfold manageChildren
  cases h : (manageChildrenDeletes P parent desiredChildren observedChildren s).value <;>
    simp [h]

theorem manageChildren_ops_split (P : Platform σ) (lc : LambdaController) (parent : Unstructured)
    (observedChildren desiredChildren : ChildMap) (s : σ) :
    ∃ ds us : List Op,
      (manageChildren P lc parent observedChildren desiredChildren s).ops = ds ++ us ∧
      (∀ op ∈ ds, op.isDelete = true) ∧ (∀ op ∈ us, op.isDelete = false) := by
  have h1 := manageChildrenDeletes_isDelete P parent desiredChildren observedChildren s
  have h2 := manageChildrenUpdates_not_isDelete P parent observedChildren desiredChildren
      (manageChildrenDeletes P parent desiredChildren observedChildren s).state
  simp only [Run.ops, manageChildren_trace, List.map_append]
  cases (manageChildrenDeletes P parent desiredChildren observedChildren s).value with
  | panicked => exact ⟨_, [], rfl, h1, by simp⟩
  | returned errs1 => exact ⟨_, _, rfl, h1, h2⟩


theorem Outcome.map_eq_panicked {α β : Type} (f : α → β) (o : Outcome α) :
    (o.map f = .panicked ↔ o = .panicked) := by
  cases o <;> simp [Outcome.map]

theorem parseChildMapKey_of_mem (key : String) (h : '.' ∈ key.data) :
    ∃ apiVersion kind, parseChildMapKey key = .returned (apiVersion, kind) := by
  obtain ⟨pre, post, e, hp⟩ := splitN2_of_mem key.data h
  exact ⟨_, _, parseChildMapKey_of_split key pre post e hp⟩

theorem manageChildrenDeletes_indep {σ' : Type} (P : Platform σ) (P' : Platform σ')
    (ht : P.timeNonZero = P'.timeNonZero) (hk : P.kind = P'.kind) (parent : Unstructured)
    (desiredChildren observedChildren : ChildMap) (s : σ) (s' : σ') :
    (manageChildrenDeletes P parent desiredChildren observedChildren s).ops =
        (manageChildrenDeletes P' parent desiredChildren observedChildren s').ops ∧
      ((manageChildrenDeletes P parent desiredChildren observedChildren s).value = .panicked ↔
        (manageChildrenDeletes P' parent desiredChildren observedChildren s').value = .panicked) := by
  induction observedChildren generalizing s s' with
  | nil => simp [manageChildrenDeletes, Run.ops]
  | cons e rest ih =>
    obtain ⟨key, objects⟩ := e
    cases hp : parseChildMapKey key with
    | panicked =>
      simp [manageChildrenDeletes_panicked _ _ _ _ _ _ _ hp, Run.ops]
    | returned pr =>
      obtain ⟨apiVersion, kind⟩ := pr
      cases hkk : P.kind apiVersion kind parent.getNamespace with
      | error err =>
        have hkk' : P'.kind apiVersion kind parent.getNamespace = .error err := by
          rw [← hk]; exact hkk
        rw [manageChildrenDeletes_error _ _ _ _ _ _ _ _ _ _ hp hkk,
          manageChildrenDeletes_error _ _ _ _ _ _ _ _ _ _ hp hkk']
        simp only [Run.ops, Outcome.map_eq_panicked]
        exact ih s s'
      | ok client =>
        have hkk' : P'.kind apiVersion kind parent.getNamespace = .ok client := by
          rw [← hk]; exact hkk
        rw [manageChildrenDeletes_ok _ _ _ _ _ _ _ _ _ _ hp hkk,
          manageChildrenDeletes_ok _ _ _ _ _ _ _ _ _ _ hp hkk']
        have h1 := deleteChildren_ops P client parent objects (mapGet key desiredChildren) s
        have h2 := deleteChildren_ops P' client parent objects (mapGet key desiredChildren) s'
        have h3 := ih (deleteChildren P client parent objects (mapGet key desiredChildren) s).state
          (deleteChildren P' client parent objects (mapGet key desiredChildren) s').state
        simp only [Run.ops, Outcome.map_eq_panicked, List.map_append] at *
        rw [h1, h2, ht, h3.1]
        exact ⟨rfl, h3.2⟩

theorem manageChildrenUpdates_indep {σ' : Type} (P : Platform σ) (P' : Platform σ')
    (hk : P.kind = P'.kind) (parent : Unstructured)
    (observedChildren desiredChildren : ChildMap) (s : σ) (s' : σ') :
    (manageChildrenUpdates P parent observedChildren desiredChildren s).ops =
        (manageChildrenUpdates P' parent observedChildren desiredChildren s').ops ∧
      ((manageChildrenUpdates P parent observedChildren desiredChildren s).value = .panicked ↔
        (manageChildrenUpdates P' parent observedChildren desiredChildren s').value = .panicked) := by
  induction desiredChildren generalizing s s' with
  | nil => simp [manageChildrenUpdates, Run.ops]
  | cons e rest ih =>
    obtain ⟨key, objects⟩ := e
    cases hp : parseChildMapKey key with
    | panicked =>
      simp [manageChildrenUpdates_panicked _ _ _ _ _ _ _ hp, Run.ops]
    | returned pr =>
      obtain ⟨apiVersion, kind⟩ := pr
      cases hkk : P.kind apiVersion kind parent.getNamespace with
      | error err =>
        have hkk' : P'.kind apiVersion kind parent.getNamespace = .error err := by
          rw [← hk]; exact hkk
        rw [manageChildrenUpdates_error _ _ _ _ _ _ _ _ _ _ hp hkk,
          manageChildrenUpdates_error _ _ _ _ _ _ _ _ _ _ hp hkk']
        simp only [Run.ops, Outcome.map_eq_panicked]
        exact ih s s'
      | ok client =>
        have hkk' : P'.kind apiVersion kind parent.getNamespace = .ok client := by
          rw [← hk]; exact hkk
        rw [manageChildrenUpdates_ok _ _ _ _ _ _ _ _ _ _ hp hkk,
          manageChildrenUpdates_ok _ _ _ _ _ _ _ _ _ _ hp hkk']
        have h1 := updateChildren_ops P client parent (mapGet key observedChildren) objects s
        have h2 := updateChildren_ops P' client parent (mapGet key observedChildren) objects s'
        have h3 := ih
          (updateChildren P client parent (mapGet key observedChildren) objects s).state
          (updateChildren P' client parent (mapGet key observedChildren) objects s').state
        simp only [Run.ops, Outcome.map_eq_panicked, List.map_append] at *
        rw [h1, h2, h3.1]
        exact ⟨rfl, h3.2⟩

theorem manageChildren_indep {σ' : Type} (P : Platform σ) (P' : Platform σ')
    (ht : P.timeNonZero = P'.timeNonZero) (hk : P.kind = P'.kind) (lc : LambdaController)
    (parent : Unstructured) (observedChildren desiredChildren : ChildMap) (s : σ) (s' : σ') :
    (manageChildren P lc parent observedChildren desiredChildren s).ops =
      (manageChildren P' lc parent observedChildren desiredChildren s').ops := by
  have h1 := manageChildrenDeletes_indep P P' ht hk parent desiredChildren observedChildren s s'
  have h2 := manageChildrenUpdates_indep P P' hk parent observedChildren desiredChildren
    (manageChildrenDeletes P parent desiredChildren observedChildren s).state
    (manageChildrenDeletes P' parent desiredChildren observedChildren s').state
  simp only [Run.ops, manageChildren_trace, List.map_append] at *
  cases hv : (manageChildrenDeletes P parent desiredChildren observedChildren s).value with
  | panicked =>
    have hv' := h1.2.mp hv
    simp [hv', h1.1]
  | returned errs =>
    cases hv' : (manageChildrenDeletes P' parent desiredChildren observedChildren s').value with
    | panicked => rw [h1.2.mpr hv'] at hv; cases hv
    | returned errs' => simp [h1.1, h2.1]


theorem anyFailed_append (a b : List (Op × Option Error)) :
    anyFailed (a ++ b) = (anyFailed a || anyFailed b) := by
  simp [anyFailed, List.any_append]

theorem deleteChildren_value (P : Platform σ) (client : Client) (parent : Unstructured)
    (observed : ObjMap) (desired : Option ObjMap) (s : σ) :
    ((deleteChildren P client parent observed desired s).value.toList = [] ↔
      anyFailed (deleteChildren P client parent observed desired s).trace = false) := by
  have h := deleteChildrenLoop_errs P client desired observed s
  simp only [deleteChildren]
  rw [← h]
  cases hv : (deleteChildrenLoop P client desired observed s).value <;> simp [newAggregate]

theorem updateChildren_value (P : Platform σ) (client : Client) (parent : Unstructured)
    (observed : Option ObjMap) (desired : ObjMap) (s : σ) :
    ((updateChildren P client parent observed desired s).value.toList = [] ↔
      anyFailed (updateChildren P client parent observed desired s).trace = false) := by
  have h := updateChildrenLoop_errs P client parent observed desired s
  simp only [updateChildren]
  rw [← h]
  cases hv : (updateChildrenLoop P client parent observed desired s).value <;> simp [newAggregate]

theorem manageChildrenDeletes_returned (P : Platform σ) (parent : Unstructured)
    (desiredChildren observedChildren : ChildMap) (s : σ)
    (hw : ∀ key ∈ mapKeys observedChildren, '.' ∈ key.data) :
    ∃ errs, (manageChildrenDeletes P parent desiredChildren observedChildren s).value =
        .returned errs ∧
      (errs = [] ↔
        (anyFailed (manageChildrenDeletes P parent desiredChildren observedChildren s).trace = false
          ∧ anyLookupFailed P parent observedChildren = false)) := by
  induction observedChildren generalizing s with
  | nil => exact ⟨[], by simp [manageChildrenDeletes, anyFailed, anyLookupFailed]⟩
  | cons e rest ih =>
    obtain ⟨key, objects⟩ := e
    have hrest : ∀ key ∈ mapKeys rest, '.' ∈ key.data := fun k hk =>
      hw k (by simp only [mapKeys, List.map_cons, List.mem_cons] at *; exact Or.inr hk)
    obtain ⟨apiVersion, kind, hp⟩ := parseChildMapKey_of_mem key (hw key (by simp [mapKeys]))
    cases hkk : P.kind apiVersion kind parent.getNamespace with
    | error err =>
      rw [manageChildrenDeletes_error _ _ _ _ _ _ _ _ _ _ hp hkk]
      obtain ⟨errs, hv, _⟩ := ih s hrest
      refine ⟨err :: errs, by simp [hv, Outcome.map], ?_⟩
      simp [anyLookupFailed, hp, hkk]
    | ok client =>
      rw [manageChildrenDeletes_ok _ _ _ _ _ _ _ _ _ _ hp hkk]
      obtain ⟨errs, hv, hiff⟩ :=
        ih (deleteChildren P client parent objects (mapGet key desiredChildren) s).state hrest
      have hd := deleteChildren_value P client parent objects (mapGet key desiredChildren) s
      refine ⟨_, by simp only [hv, Outcome.map]; rfl, ?_⟩
      simp only [List.append_eq_nil, hd, hiff, anyFailed_append, Bool.or_eq_false_iff]
      have hl : anyLookupFailed P parent ((key, objects) :: rest) =
          anyLookupFailed P parent rest := by
        simp [anyLookupFailed, hp, hkk]
      rw [hl]
      tauto

theorem manageChildrenUpdates_returned (P : Platform σ) (parent : Unstructured)
    (observedChildren desiredChildren : ChildMap) (s : σ)
    (hw : ∀ key ∈ mapKeys desiredChildren, '.' ∈ key.data) :
    ∃ errs, (manageChildrenUpdates P parent observedChildren desiredChildren s).value =
        .returned errs ∧
      (errs = [] ↔
        (anyFailed (manageChildrenUpdates P parent observedChildren desiredChildren s).trace = false
          ∧ anyLookupFailed P parent desiredChildren = false)) := by
  induction desiredChildren generalizing s with
  | nil => exact ⟨[], by simp [manageChildrenUpdates, anyFailed, anyLookupFailed]⟩
  | cons e rest ih =>
    obtain ⟨key, objects⟩ := e
    have hrest : ∀ key ∈ mapKeys rest, '.' ∈ key.data := fun k hk =>
      hw k (by simp only [mapKeys, List.map_cons, List.mem_cons] at *; exact Or.inr hk)
    obtain ⟨apiVersion, kind, hp⟩ := parseChildMapKey_of_mem key (hw key (by simp [mapKeys]))
    cases hkk : P.kind apiVersion kind parent.getNamespace with
    | error err =>
      rw [manageChildrenUpdates_error _ _ _ _ _ _ _ _ _ _ hp hkk]
      obtain ⟨errs, hv, _⟩ := ih s hrest
      refine ⟨err :: errs, by simp [hv, Outcome.map], ?_⟩
      simp [anyLookupFailed, hp, hkk]
    | ok client =>
      rw [manageChildrenUpdates_ok _ _ _ _ _ _ _ _ _ _ hp hkk]
      obtain ⟨errs, hv, hiff⟩ :=
        ih (updateChildren P client parent (mapGet key observedChildren) objects s).state hrest
      have hd := updateChildren_value P client parent (mapGet key observedChildren) objects s
      refine ⟨_, by simp only [hv, Outcome.map]; rfl, ?_⟩
      simp only [List.append_eq_nil, hd, hiff, anyFailed_append, Bool.or_eq_false_iff]
      have hl : anyLookupFailed P parent ((key, objects) :: rest) =
          anyLookupFailed P parent rest := by
        simp [anyLookupFailed, hp, hkk]
      rw [hl]
      tauto

theorem manageChildren_returned (P : Platform σ) (lc : LambdaController)
    (parent : Unstructured) (observedChildren desiredChildren : ChildMap) (s : σ)
    (hwo : ∀ key ∈ mapKeys observedChildren, '.' ∈ key.data)
    (hwd : ∀ key ∈ mapKeys desiredChildren, '.' ∈ key.data) :
    ∃ err, (manageChildren P lc parent observedChildren desiredChildren s).value =
        .returned err ∧
      (err = none ↔
        (anyFailed (manageChildren P lc parent observedChildren desiredChildren s).trace = false
          ∧ anyLookupFailed P parent observedChildren = false
          ∧ anyLookupFailed P parent desiredChildren = false)) := by
  obtain ⟨errs1, hv1, h1⟩ :=
    manageChildrenDeletes_returned P parent desiredChildren observedChildren s hwo
  obtain ⟨errs2, hv2, h2⟩ := manageChildrenUpdates_returned P parent observedChildren
    desiredChildren (manageChildrenDeletes P parent desiredChildren observedChildren s).state hwd
  refine ⟨newAggregate (errs1 ++ errs2), ?_, ?_⟩
  · unfold manageChildren
    simp [hv1, hv2, Outcome.map]
  · rw [manageChildren_trace, hv1]
    simp only [newAggregate_eq_none, List.append_eq_nil, h1, h2, anyFailed_append,
      Bool.or_eq_false_iff]
    tauto

theorem manageChildrenDeletes_panics_of_key (P : Platform σ) (parent : Unstructured)
    (desiredChildren observedChildren : ChildMap) (s : σ) (key : String)
    (hk : key ∈ mapKeys observedChildren) (hbad : '.' ∉ key.data) :
    (manageChildrenDeletes P parent desiredChildren observedChildren s).value = .panicked := by
  induction observedChildren generalizing s with
  | nil => simp [mapKeys] at hk
  | cons e rest ih =>
    obtain ⟨key', objects⟩ := e
    cases hp : parseChildMapKey key' with
    | panicked => rw [manageChildrenDeletes_panicked _ _ _ _ _ _ _ hp]
    | returned pr =>
      obtain ⟨apiVersion, kind⟩ := pr
      have hne : key ≠ key' := by
        intro e
        rw [← e, parseChildMapKey_of_not_mem key hbad] at hp
        cases hp
      have hk' : key ∈ mapKeys rest := by
        simp only [mapKeys, List.map_cons, List.mem_cons] at hk
        rcases hk with h | h
        · exact absurd h hne
        · exact h
      cases hkk : P.kind apiVersion kind parent.getNamespace with
      | error err =>
        rw [manageChildrenDeletes_error _ _ _ _ _ _ _ _ _ _ hp hkk]
        simp only [Outcome.map_eq_panicked]
        exact ih s hk'
      | ok client =>
        rw [manageChildrenDeletes_ok _ _ _ _ _ _ _ _ _ _ hp hkk]
        simp only [Outcome.map_eq_panicked]
        exact ih _ hk'

theorem manageChildrenUpdates_panics_of_key (P : Platform σ) (parent : Unstructured)
    (observedChildren desiredChildren : ChildMap) (s : σ) (key : String)
    (hk : key ∈ mapKeys desiredChildren) (hbad : '.' ∉ key.data) :
    (manageChildrenUpdates P parent observedChildren desiredChildren s).value = .panicked := by
  induction desiredChildren generalizing s with
  | nil => simp [mapKeys] at hk
  | cons e rest ih =>
    obtain ⟨key', objects⟩ := e
    cases hp : parseChildMapKey key' with
    | panicked => rw [manageChildrenUpdates_panicked _ _ _ _ _ _ _ hp]
    | returned pr =>
      obtain ⟨apiVersion, kind⟩ := pr
      have hne : key ≠ key' := by
        intro e
        rw [← e, parseChildMapKey_of_not_mem key hbad] at hp
        cases hp
      have hk' : key ∈ mapKeys rest := by
        simp only [mapKeys, List.map_cons, List.mem_cons] at hk
        rcases hk with h | h
        · exact absurd h hne
        · exact h
      cases hkk : P.kind apiVersion kind parent.getNamespace with
      | error err =>
        rw [manageChildrenUpdates_error _ _ _ _ _ _ _ _ _ _ hp hkk]
        simp only [Outcome.map_eq_panicked]
        exact ih s hk'
      | ok client =>
        rw [manageChildrenUpdates_ok _ _ _ _ _ _ _ _ _ _ hp hkk]
        simp only [Outcome.map_eq_panicked]
        exact ih _ hk'

theorem manageChildren_panics_of_key (P : Platform σ) (lc : LambdaController)
    (parent : Unstructured) (observedChildren desiredChildren : ChildMap) (s : σ)
    (key : String) (hk : key ∈ mapKeys observedChildren ∨ key ∈ mapKeys desiredChildren)
    (hbad : '.' ∉ key.data) :
    (manageChildren P lc parent observedChildren desiredChildren s).value = .panicked := by
  unfold manageChildren
  cases hv : (manageChildrenDeletes P parent desiredChildren observedChildren s).value with
  | panicked => simp [hv]
  | returned errs1 =>
    simp only [hv, Outcome.map_eq_panicked]
    rcases hk with h | h
    · rw [manageChildrenDeletes_panics_of_key P parent desiredChildren observedChildren s key h hbad]
        at hv
      cases hv
    · exact manageChildrenUpdates_panics_of_key P parent observedChildren desiredChildren _ key h hbad

theorem mapGet_eq_some_mem {α : Type} (k : String) (v : α) (m : List (String × α))
    (h : mapGet k m = some v) : (k, v) ∈ m := by
  induction m with
  | nil => simp [mapGet] at h
  | cons e rest ih =>
    obtain ⟨k', v'⟩ := e
    by_cases hk : k' = k
    · simp [mapGet, hk] at h
      simp [hk, h]
    · simp [mapGet, hk] at h
      exact List.mem_cons_of_mem _ (ih h)

theorem mapGet_of_mem_nodup {α : Type} (k : String) (v : α) (m : List (String × α))
    (hn : (mapKeys m).Nodup) (h : (k, v) ∈ m) : mapGet k m = some v := by
  induction m with
  | nil => simp at h
  | cons e rest ih =>
    obtain ⟨k', v'⟩ := e
    simp only [mapKeys, List.map_cons, List.nodup_cons] at hn
    rcases List.mem_cons.mp h with e | e
    · cases e
      simp [mapGet]
    · have hne : k' ≠ k := by
        intro e'
        subst e'
        exact hn.1 (List.mem_map.mpr ⟨(k', v), e, rfl⟩)
      simp only [mapGet, hne, if_false]
      exact ih hn.2 e

theorem mapGet_isSome_of_key_mem {α : Type} (k : String) (m : List (String × α))
    (h : k ∈ mapKeys m) : ∃ v, mapGet k m = some v := by
  induction m with
  | nil => simp [mapKeys] at h
  | cons e rest ih =>
    obtain ⟨k', v'⟩ := e
    by_cases hk : k' = k
    · exact ⟨v', by simp [mapGet, hk]⟩
    · simp only [mapKeys, List.map_cons, List.mem_cons] at h
      rcases h with h | h
      · exact absurd h.symm hk
      · obtain ⟨v, hv⟩ := ih h
        exact ⟨v, by simp [mapGet, hk, hv]⟩

/-- Two lists of the same length, the first without repetition and contained in the second,
have the same elements. -/
theorem subset_of_nodup_of_length_eq {α : Type} [DecidableEq α] (a b : List α) (hn : a.Nodup)
    (hs : a ⊆ b) (hl : a.length = b.length) : b ⊆ a := by
  have hsp : a.Subperm b := List.subperm_of_subset hn hs
  have hp : a.Perm b := hsp.perm_of_length_le (by omega)
  exact hp.symm.subset


theorem deepEqualMap_iff (m1 m2 : List (String × Value)) :
    Value.deepEqualMap m1 m2 = true ↔
      ∀ e ∈ m1, ∃ v2, mapGet e.1 m2 = some v2 ∧ Value.deepEqual e.2 v2 = true := by
  induction m1 with
  | nil => simp [Value.deepEqualMap]
  | cons e rest ih =>
    obtain ⟨k, v⟩ := e
    simp only [Value.deepEqualMap, Bool.and_eq_true, ih, List.mem_cons, forall_eq_or_imp]
    constructor
    · rintro ⟨h1, h2⟩
      refine ⟨?_, h2⟩
      cases hg : mapGet k m2 with
      | none => simp [hg] at h1
      | some v2 => exact ⟨v2, rfl, by simpa [hg] using h1⟩
    · rintro ⟨⟨v2, hg, hd⟩, h2⟩
      exact ⟨by simp [hg, hd], h2⟩

theorem wfFields_iff (m : List (String × Value)) :
    Value.wfFields m = true ↔ ∀ e ∈ m, e.2.wf = true := by
  induction m with
  | nil => simp [Value.wfFields]
  | cons e rest ih =>
    obtain ⟨k, v⟩ := e
    simp [Value.wfFields, ih]

theorem deepEqual_map_symm (m1 m2 : List (String × Value))
    (ih : ∀ e ∈ m1, ∀ b : Value, e.2.wf = true → b.wf = true →
      Value.deepEqual e.2 b = true → Value.deepEqual b e.2 = true)
    (hw1 : (Value.map m1).wf = true) (hw2 : (Value.map m2).wf = true)
    (h : Value.deepEqual (.map m1) (.map m2) = true) :
    Value.deepEqual (.map m2) (.map m1) = true := by
  simp only [Value.wf, Bool.and_eq_true, decide_eq_true_eq, wfFields_iff] at hw1 hw2
  simp only [Value.deepEqual, Bool.and_eq_true, beq_iff_eq, deepEqualMap_iff] at h ⊢
  obtain ⟨hl, hall⟩ := h
  refine ⟨hl.symm, ?_⟩
  have hsub : m1.map Prod.fst ⊆ m2.map Prod.fst := by
    intro k hk
    obtain ⟨e, he, rfl⟩ := List.mem_map.mp hk
    obtain ⟨v2, hg, _⟩ := hall e he
    exact List.mem_map.mpr ⟨(e.1, v2), mapGet_eq_some_mem _ _ _ hg, rfl⟩
  have hsup := subset_of_nodup_of_length_eq _ _ hw1.1 hsub (by simp [hl])
  intro e2 he2
  have hk : e2.1 ∈ mapKeys m1 := hsup (List.mem_map.mpr ⟨e2, he2, rfl⟩)
  obtain ⟨v1, hg1⟩ := mapGet_isSome_of_key_mem _ _ hk
  have hm1 := mapGet_eq_some_mem _ _ _ hg1
  obtain ⟨v2, hg2, hd⟩ := hall (e2.1, v1) hm1
  have hg2' : mapGet e2.1 m2 = some e2.2 := mapGet_of_mem_nodup _ _ _ hw2.1 he2
  rw [hg2'] at hg2
  cases hg2
  exact ⟨v1, hg1, ih (e2.1, v1) hm1 e2.2 (hw1.2 _ hm1) (hw2.2 _ he2) hd⟩

mutual
theorem deepEqual_symm : (a b : Value) → a.wf = true → b.wf = true →
    Value.deepEqual a b = true → Value.deepEqual b a = true
  | .null, b, _, _, h => by cases b <;> simp_all [Value.deepEqual]
  | .bool x, b, _, _, h => by cases b <;> simp_all [Value.deepEqual]
  | .int x, b, _, _, h => by cases b <;> simp_all [Value.deepEqual]
  | .float x, b, _, _, h => by cases b <;> simp_all [Value.deepEqual]
  | .str x, b, _, _, h => by cases b <;> simp_all [Value.deepEqual]
  | .nilMap, b, _, _, h => by cases b <;> simp_all [Value.deepEqual]
  | .slice xs, .slice ys, hw1, hw2, h => by
    simp only [Value.deepEqual, Value.wf] at *
    exact deepEqualSlice_symm xs ys hw1 hw2 h
  | .slice _, .null, _, _, h => by simp [Value.deepEqual] at h
  | .slice _, .bool _, _, _, h => by simp [Value.deepEqual] at h
  | .slice _, .int _, _, _, h => by simp [Value.deepEqual] at h
  | .slice _, .float _, _, _, h => by simp [Value.deepEqual] at h
  | .slice _, .str _, _, _, h => by simp [Value.deepEqual] at h
  | .slice _, .nilMap, _, _, h => by simp [Value.deepEqual] at h
  | .slice _, .map _, _, _, h => by simp [Value.deepEqual] at h
  | .map m1, .map m2, hw1, hw2, h =>
    deepEqual_map_symm m1 m2 (fields_symm m1) hw1 hw2 h
  | .map _, .null, _, _, h => by simp [Value.deepEqual] at h
  | .map _, .bool _, _, _, h => by simp [Value.deepEqual] at h
  | .map _, .int _, _, _, h => by simp [Value.deepEqual] at h
  | .map _, .float _, _, _, h => by simp [Value.deepEqual] at h
  | .map _, .str _, _, _, h => by simp [Value.deepEqual] at h
  | .map _, .nilMap, _, _, h => by simp [Value.deepEqual] at h
  | .map _, .slice _, _, _, h => by simp [Value.deepEqual] at h
theorem deepEqualSlice_symm : (xs ys : List Value) → Value.wfSlice xs = true →
    Value.wfSlice ys = true → Value.deepEqualSlice xs ys = true →
    Value.deepEqualSlice ys xs = true
  | [], [], _, _, _ => by simp [Value.deepEqualSlice]
  | [], _ :: _, _, _, h => by simp [Value.deepEqualSlice] at h
  | _ :: _, [], _, _, h => by simp [Value.deepEqualSlice] at h
  | x :: xs, y :: ys, hw1, hw2, h => by
    simp only [Value.deepEqualSlice, Value.wfSlice, Bool.and_eq_true] at *
    exact ⟨deepEqual_symm x y hw1.1 hw2.1 h.1, deepEqualSlice_symm xs ys hw1.2 hw2.2 h.2⟩
theorem fields_symm : (m : List (String × Value)) → ∀ e ∈ m, ∀ b : Value,
    e.2.wf = true → b.wf = true → Value.deepEqual e.2 b = true → Value.deepEqual b e.2 = true
  | [], e, he => by simp at he
  | (k, v) :: rest, e, he => by
    by_cases hev : e = (k, v)
    · subst hev
      exact deepEqual_symm v
    · have : e ∈ rest := by
        rcases List.mem_cons.mp he with h | h
        · exact absurd h hev
        · exact h
      exact fields_symm rest e this
end

theorem mapGet_mapSet_self {α : Type} (k : String) (v : α) (m : List (String × α)) :
    mapGet k (mapSet k v m) = some v := by
  induction m with
  | nil => simp [mapSet, mapGet]
  | cons e rest ih =>
    obtain ⟨k', v'⟩ := e
    by_cases h : k' = k
    · simp [mapSet, mapGet, h]
    · simp [mapSet, mapGet, h, ih]

theorem mapGet_mapSet_ne {α : Type} (k k2 : String) (v : α) (m : List (String × α))
    (hne : k2 ≠ k) : mapGet k2 (mapSet k v m) = mapGet k2 m := by
  induction m with
  | nil => simp [mapSet, mapGet, Ne.symm hne]
  | cons e rest ih =>
    obtain ⟨k', v'⟩ := e
    by_cases h : k' = k
    · subst h
      simp [mapSet, mapGet, Ne.symm hne]
    · by_cases h2 : k' = k2
      · subst h2
        simp [mapSet, mapGet, hne]
      · simp [mapSet, mapGet, h, h2, ih]

theorem filterMap_deleteFor (t : String → Bool) (client : Client) (desired : Option ObjMap)
    (observed : ObjMap) :
    observed.filterMap (deleteFor t client desired) =
      (observed.filter (fun e =>
        !e.2.hasDeletionTimestamp t && (desired.bind (mapGet e.1)).isNone)).map
        (fun e => Op.delete client e.1 e.2.getUID) := by
  induction observed with
  | nil => rfl
  | cons e rest ih =>
    by_cases h : (!e.2.hasDeletionTimestamp t && (desired.bind (mapGet e.1)).isNone) = true
    · rw [List.filterMap_cons, List.filter_cons]
      simp only [deleteFor, h, if_true, List.map_cons, ih]
    · rw [List.filterMap_cons, List.filter_cons]
      simp only [deleteFor, h, if_false, ih]
      simp

theorem getElem?_append_mem_left {α : Type} (a b : List α) (i : Nat) (x : α)
    (h : (a ++ b)[i]? = some x) (hi : i < a.length) : x ∈ a := by
  rw [List.getElem?_append_left hi] at h
  exact List.getElem?_mem h

theorem getElem?_append_mem_right {α : Type} (a b : List α) (i : Nat) (x : α)
    (h : (a ++ b)[i]? = some x) (hi : a.length ≤ i) : x ∈ b := by
  rw [List.getElem?_append_right hi] at h
  exact List.getElem?_mem h

theorem anyFailed_eq_true (trace : List (Op × Option Error)) :
    anyFailed trace = true ↔ ∃ e ∈ trace, e.2.isSome = true := by
  simp [anyFailed, List.any_eq_true]

theorem anyLookupFailed_eq_true (P : Platform σ) (parent : Unstructured) (m : ChildMap) :
    anyLookupFailed P parent m = true ↔
      ∃ key ∈ mapKeys m, ∃ apiVersion kind err,
        parseChildMapKey key = .returned (apiVersion, kind) ∧
        P.kind apiVersion kind parent.getNamespace = .error err := by
  simp only [anyLookupFailed, List.any_eq_true, mapKeys, List.mem_map]
  constructor
  · rintro ⟨e, he, h⟩
    refine ⟨e.1, ⟨e, he, rfl⟩, ?_⟩
    cases hp : parseChildMapKey e.1 with
    | panicked => simp [hp] at h
    | returned pr =>
      obtain ⟨apiVersion, kind⟩ := pr
      cases hk : P.kind apiVersion kind parent.getNamespace with
      | ok c => simp [hp, hk] at h
      | error err => exact ⟨apiVersion, kind, err, rfl, hk⟩
  · rintro ⟨key, ⟨e, he, rfl⟩, apiVersion, kind, err, hp, hk⟩
    exact ⟨e, he, by simp [hp, hk]⟩

theorem objMapDeepEqual_iff (a b : ObjMap) :
    objMapDeepEqual a b = true ↔
      a.length = b.length ∧ ∀ e ∈ a, ∃ o, mapGet e.1 b = some o ∧
        Value.deepEqual e.2.content o.content = true := by
  simp only [objMapDeepEqual, Bool.and_eq_true, beq_iff_eq, List.all_eq_true]
  constructor
  · rintro ⟨hl, h⟩
    refine ⟨hl, fun e he => ?_⟩
    have := h e he
    cases hg : mapGet e.1 b with
    | none => simp [hg] at this
    | some o => exact ⟨o, rfl, by simpa [hg] using this⟩
  · rintro ⟨hl, h⟩
    refine ⟨hl, fun e he => ?_⟩
    obtain ⟨o, hg, hd⟩ := h e he
    simp [hg, hd]

theorem childMapDeepEqual_iff (a b : ChildMap) :
    childMapDeepEqual a b = true ↔
      a.length = b.length ∧ ∀ e ∈ a, ∃ m, mapGet e.1 b = some m ∧
        objMapDeepEqual e.2 m = true := by
  simp only [childMapDeepEqual, Bool.and_eq_true, beq_iff_eq, List.all_eq_true]
  constructor
  · rintro ⟨hl, h⟩
    refine ⟨hl, fun e he => ?_⟩
    have := h e he
    cases hg : mapGet e.1 b with
    | none => simp [hg] at this
    | some o => exact ⟨o, rfl, by simpa [hg] using this⟩
  · rintro ⟨hl, h⟩
    refine ⟨hl, fun e he => ?_⟩
    obtain ⟨o, hg, hd⟩ := h e he
    simp [hg, hd]

/-- A generic step: in two maps of the same length where every key of the first is a key of
the second, an entry of the second is matched by the entry of the first under its key. -/
theorem mapGet_back {α β : Type} (a : List (String × α)) (b : List (String × β))
    (hna : (mapKeys a).Nodup) (hl : a.length = b.length)
    (hsub : ∀ e ∈ a, ∃ v, mapGet e.1 b = some v) (e2 : String × β) (he2 : e2 ∈ b) :
    ∃ v1, mapGet e2.1 a = some v1 ∧ (e2.1, v1) ∈ a := by
  have hs : mapKeys a ⊆ mapKeys b := by
    intro k hk
    obtain ⟨e, he, rfl⟩ := List.mem_map.mp hk
    obtain ⟨v, hv⟩ := hsub e he
    exact List.mem_map.mpr ⟨(e.1, v), mapGet_eq_some_mem _ _ _ hv, rfl⟩
  have hsup := subset_of_nodup_of_length_eq _ _ hna hs (by simp [mapKeys, hl])
  obtain ⟨v1, hv1⟩ := mapGet_isSome_of_key_mem e2.1 a (hsup (List.mem_map.mpr ⟨e2, he2, rfl⟩))
  exact ⟨v1, hv1, mapGet_eq_some_mem _ _ _ hv1⟩

theorem objMapDeepEqual_forward (a b : ObjMap) (h : objMapDeepEqual a b = true)
    (c : String × Unstructured) (hc : c ∈ a) :
    ∃ o, mapGet c.1 b = some o ∧ Value.deepEqual c.2.content o.content = true :=
  ((objMapDeepEqual_iff a b).mp h).2 c hc

theorem objMapDeepEqual_backward (a b : ObjMap) (hwa : objMapWf a = true)
    (hwb : objMapWf b = true) (h : objMapDeepEqual a b = true)
    (c : String × Unstructured) (hc : c ∈ b) :
    ∃ o, mapGet c.1 a = some o ∧ Value.deepEqual c.2.content o.content = true := by
  simp only [objMapWf, Bool.and_eq_true, decide_eq_true_eq, List.all_eq_true] at hwa hwb
  obtain ⟨hl, hall⟩ := (objMapDeepEqual_iff a b).mp h
  obtain ⟨o, hg, hm⟩ := mapGet_back a b hwa.1 hl
    (fun e he => (hall e he).imp fun _ hx => hx.1) c hc
  obtain ⟨o2, hg2, hd⟩ := hall (c.1, o) hm
  have : mapGet c.1 b = some c.2 := mapGet_of_mem_nodup _ _ _ hwb.1 hc
  rw [this] at hg2
  cases hg2
  exact ⟨o, hg, deepEqual_symm _ _ (hwa.2 _ hm) (hwb.2 _ hc) hd⟩

theorem childMapDeepEqual_forward (a b : ChildMap) (h : childMapDeepEqual a b = true)
    (e : String × ObjMap) (he : e ∈ a) (c : String × Unstructured) (hc : c ∈ e.2) :
    ∃ o, (mapGet e.1 b).bind (mapGet c.1) = some o ∧
      Value.deepEqual c.2.content o.content = true := by
  obtain ⟨m, hg, hm⟩ := ((childMapDeepEqual_iff a b).mp h).2 e he
  obtain ⟨o, ho, hd⟩ := objMapDeepEqual_forward e.2 m hm c hc
  exact ⟨o, by simp [hg, ho], hd⟩

theorem childMapDeepEqual_backward (a b : ChildMap) (hwa : childMapWf a = true)
    (hwb : childMapWf b = true) (h : childMapDeepEqual a b = true)
    (e : String × ObjMap) (he : e ∈ b) (c : String × Unstructured) (hc : c ∈ e.2) :
    ∃ o, (mapGet e.1 a).bind (mapGet c.1) = some o ∧
      Value.deepEqual c.2.content o.content = true := by
  simp only [childMapWf, Bool.and_eq_true, decide_eq_true_eq, List.all_eq_true] at hwa hwb
  obtain ⟨hl, hall⟩ := (childMapDeepEqual_iff a b).mp h
  obtain ⟨m, hg, hm⟩ := mapGet_back a b hwa.1 hl
    (fun e he => (hall e he).imp fun _ hx => hx.1) e he
  obtain ⟨m2, hg2, hd⟩ := hall (e.1, m) hm
  have : mapGet e.1 b = some e.2 := mapGet_of_mem_nodup _ _ _ hwb.1 he
  rw [this] at hg2
  cases hg2
  obtain ⟨o, ho, hdo⟩ := objMapDeepEqual_backward m e.2 (hwa.2 _ hm) (hwb.2 _ he) hd c hc
  exact ⟨o, by simp [hg, ho], hdo⟩

theorem trace_eq_nil_of_ops {α : Type} (r : Run σ α) (h : r.ops = []) : r.trace = [] := by
  simpa [Run.ops] using h

theorem manageChildrenDeletes_noop (P : Platform σ) (parent : Unstructured)
    (desiredChildren observedChildren : ChildMap) (s : σ)
    (h : ∀ e ∈ observedChildren, ∀ c ∈ e.2,
      ((mapGet e.1 desiredChildren).bind (mapGet c.1)).isSome = true) :
    (manageChildrenDeletes P parent desiredChildren observedChildren s).trace = [] := by
  induction observedChildren generalizing s with
  | nil => simp [manageChildrenDeletes]
  | cons e rest ih =>
    obtain ⟨key, objects⟩ := e
    have hrest := fun e he => h e (List.mem_cons_of_mem _ he)
    cases hp : parseChildMapKey key with
    | panicked => simp [manageChildrenDeletes_panicked _ _ _ _ _ _ _ hp]
    | returned pr =>
      obtain ⟨apiVersion, kind⟩ := pr
      cases hk : P.kind apiVersion kind parent.getNamespace with
      | error err =>
        rw [manageChildrenDeletes_error _ _ _ _ _ _ _ _ _ _ hp hk]
        exact ih s hrest
      | ok client =>
        rw [manageChildrenDeletes_ok _ _ _ _ _ _ _ _ _ _ hp hk]
        have hd : (deleteChildren P client parent objects (mapGet key desiredChildren) s).trace
            = [] := by
          apply trace_eq_nil_of_ops
          rw [deleteChildren_ops, List.filterMap_eq_nil_iff]
          intro c hc
          have := h (key, objects) (List.mem_cons_self _ _) c hc
          simp only at this
          cases hx : (mapGet key desiredChildren).bind (mapGet c.1) with
          | none => simp [hx] at this
          | some o => simp [deleteFor, hx]
        simp only [hd, List.nil_append]
        exact ih _ hrest

theorem manageChildrenUpdates_noop (P : Platform σ) (parent : Unstructured)
    (observedChildren desiredChildren : ChildMap) (s : σ)
    (h : ∀ e ∈ desiredChildren, ∀ c ∈ e.2, ∃ o,
      (mapGet e.1 observedChildren).bind (mapGet c.1) = some o ∧
        Value.deepEqual c.2.content o.content = true) :
    (manageChildrenUpdates P parent observedChildren desiredChildren s).trace = [] := by
  induction desiredChildren generalizing s with
  | nil => simp [manageChildrenUpdates]
  | cons e rest ih =>
    obtain ⟨key, objects⟩ := e
    have hrest := fun e he => h e (List.mem_cons_of_mem _ he)
    cases hp : parseChildMapKey key with
    | panicked => simp [manageChildrenUpdates_panicked _ _ _ _ _ _ _ hp]
    | returned pr =>
      obtain ⟨apiVersion, kind⟩ := pr
      cases hk : P.kind apiVersion kind parent.getNamespace with
      | error err =>
        rw [manageChildrenUpdates_error _ _ _ _ _ _ _ _ _ _ hp hk]
        exact ih s hrest
      | ok client =>
        rw [manageChildrenUpdates_ok _ _ _ _ _ _ _ _ _ _ hp hk]
        have hd : (updateChildren P client parent (mapGet key observedChildren) objects
            s).trace = [] := by
          apply trace_eq_nil_of_ops
          rw [updateChildren_ops, List.filterMap_eq_nil_iff]
          intro c hc
          obtain ⟨o, ho, hdeq⟩ := h (key, objects) (List.mem_cons_self _ _) c hc
          simp only at ho
          simp [applyFor, ho, hdeq]
        simp only [hd, List.nil_append]
        exact ih _ hrest

theorem manageChildren_noop (P : Platform σ) (lc : LambdaController) (parent : Unstructured)
    (observedChildren desiredChildren : ChildMap) (s : σ)
    (hwo : childMapWf observedChildren = true) (hwd : childMapWf desiredChildren = true)
    (heq : childMapDeepEqual observedChildren desiredChildren = true ∨
      childMapDeepEqual desiredChildren observedChildren = true) :
    (manageChildren P lc parent observedChildren desiredChildren s).trace = [] := by
  have hdel : ∀ e ∈ observedChildren, ∀ c ∈ e.2,
      ((mapGet e.1 desiredChildren).bind (mapGet c.1)).isSome = true := by
    intro e he c hc
    rcases heq with h | h
    · obtain ⟨o, ho, _⟩ := childMapDeepEqual_forward _ _ h e he c hc
      simp [ho]
    · obtain ⟨o, ho, _⟩ := childMapDeepEqual_backward _ _ hwd hwo h e he c hc
      simp [ho]
  have hupd : ∀ e ∈ desiredChildren, ∀ c ∈ e.2, ∃ o,
      (mapGet e.1 observedChildren).bind (mapGet c.1) = some o ∧
        Value.deepEqual c.2.content o.content = true := by
    intro e he c hc
    rcases heq with h | h
    · exact childMapDeepEqual_backward _ _ hwo hwd h e he c hc
    · exact childMapDeepEqual_forward _ _ h e he c hc
  rw [manageChildren_trace, manageChildrenDeletes_noop P parent _ _ s hdel]
  cases (manageChildrenDeletes P parent desiredChildren observedChildren s).value with
  | panicked => rfl
  | returned errs => exact manageChildrenUpdates_noop P parent _ _ _ hupd

theorem filterMap_applyFor_present (client : Client) (parent : Unstructured)
    (observed : Option ObjMap) (name : String) (obj oldObj : Unstructured)
    (hold : observed.bind (mapGet name) = some oldObj) :
    applyFor client parent observed (name, obj) =
      if Value.deepEqual obj.content oldObj.content then none else some (.update client obj) := by
  simp [applyFor, hold]

end Lemmas

/-! ## The claims -/

/-- Claim C1, evaluated on the code at a desired `Pod` that arrives with no owner references
and whose name is not observed: the object handed to `Create` carries the string `"metadata"`
under a top-level key `ownerReferences`, and its `metadata.ownerReferences` is still absent,
so it has no controller owner reference pointing at the parent. -/
theorem updateChildren_create_without_controllerRef :
    (updateChildren (examplePlatform (fun _ => false) false [] exampleResponse)
        examplePodClient exampleParent none [("p-1", examplePod "p-1")] 0).ops =
      [.create examplePodClient ⟨[("apiVersion", .str "v1"), ("kind", .str "Pod"),
        ("metadata", .map [("name", .str "p-1")]), ("ownerReferences", .str "metadata")]⟩] ∧
    getNestedField (objectToCreate exampleParent (examplePod "p-1")).content
        ["metadata", "ownerReferences"] = .null :=
  ⟨rfl, rfl⟩

/-- Claim C2 as stated fails: in this pass both the child reconciliation and the status
update fail, and the pass returns the status-update error, not the apply error. -/
theorem syncParentResource_status_error_first :
    (manageChildren (examplePlatform (fun _ => true) true [] exampleResponse) exampleController
        exampleParent [("Pod.v1", [])] (makeChildMap exampleResponse.children) 0).value =
      .returned (some (.aggregate [.aggregate [.api "refused"]])) ∧
    (syncParentResource (examplePlatform (fun _ => true) true [] exampleResponse)
        exampleController exampleParentResource exampleParent 0).value =
      .returned (some (.cantUpdateStatus "CatSet" "ns" "cs" (.api "conflict"))) :=
  ⟨rfl, rfl⟩

/-- Claim C2, amended. For every pass of `syncParentResource` that reaches the status
write-back (`m` is the child reconciliation step, skipped for a parent being deleted, and
`manageErr` its error): when the status update fails the pass returns the status-update
error, whether or not child reconciliation failed; when the status update succeeds the pass
returns the apply error, if any; and the pass returns success exactly when both succeeded. -/
theorem syncParentResource_result {σ : Type} (P : Platform σ) (lc : LambdaController)
    (parentResource : APIResource) (parent : Unstructured) (s : σ)
    (labelSelector : LabelSelector) (selector : Selector) (children : ChildMap)
    (syncResult : SyncHookResponse) (m : Run σ (Outcome (Option Error)))
    (manageErr : Option Error)
    (hsel : P.getLabelSelector parent = .ok labelSelector)
    (hconv : P.labelSelectorAsSelector labelSelector = .ok selector)
    (hclaim : (claimChildren P lc parentResource parent selector s).value = .ok children)
    (hhook : (P.callSyncHook (claimChildren P lc parentResource parent selector s).state lc parent
      children).2 = .ok syncResult)
    (hm : m = if !parent.hasDeletionTimestamp P.timeNonZero then
        manageChildren P lc parent children (makeChildMap syncResult.children)
          (P.callSyncHook (claimChildren P lc parentResource parent selector s).state lc parent
            children).1
      else ⟨(P.callSyncHook (claimChildren P lc parentResource parent selector s).state lc parent
            children).1, [], .returned none⟩)
    (hret : m.value = .returned manageErr) :
    (∀ err, (updateParentStatus P lc parentResource parent syncResult.status m.state).2 =
        some err →
      (syncParentResource P lc parentResource parent s).value = .returned (some
        (.cantUpdateStatus parentResource.kind parent.getNamespace parent.getName err))) ∧
    ((updateParentStatus P lc parentResource parent syncResult.status m.state).2 = none →
      (syncParentResource P lc parentResource parent s).value = .returned (manageErr.map
        (.cantReconcile parentResource.kind parent.getNamespace parent.getName))) ∧
    ((syncParentResource P lc parentResource parent s).value = .returned none ↔
      (manageErr = none ∧
        (updateParentStatus P lc parentResource parent syncResult.status m.state).2 = none)) := by
  have key : (syncParentResource P lc parentResource parent s).value =
      .returned (match (updateParentStatus P lc parentResource parent syncResult.status
          m.state).2 with
        | some err => some
          (.cantUpdateStatus parentResource.kind parent.getNamespace parent.getName err)
        | none => manageErr.map
          (.cantReconcile parentResource.kind parent.getNamespace parent.getName)) := by
    unfold syncParentResource
    simp only [hsel, hconv, hclaim, hhook]
    rw [← hm]
    simp only [hret]
    cases hu : (updateParentStatus P lc parentResource parent syncResult.status m.state).2 <;>
      simp
  rw [key]
  cases hu : (updateParentStatus P lc parentResource parent syncResult.status m.state).2 with
  | none => cases manageErr <;> simp
  | some err => simp

/-- Claim C2, amended, at a pass whose only desired child cannot be created and whose status
update succeeds: the pass returns the apply error. -/
theorem syncParentResource_result_witness :
    (syncParentResource (examplePlatform (fun _ => true) false [] exampleResponse)
        exampleController exampleParentResource exampleParent 0).value =
      .returned (some (.cantReconcile "CatSet" "ns" "cs"
        (.aggregate [.aggregate [.api "refused"]]))) :=
  (syncParentResource_result (examplePlatform (fun _ => true) false [] exampleResponse)
    exampleController exampleParentResource exampleParent 0
    ⟨.map []⟩ ⟨⟨.map []⟩⟩ [("Pod.v1", [])] exampleResponse _
    (some (.aggregate [.aggregate [.api "refused"]])) rfl rfl rfl rfl rfl rfl).2.1 rfl

/-- Claim C3. For every observed map and every desired map (`none` when nil),
`deleteChildren` issues, in iteration order, one `Delete` for each observed entry that
carries no deletion timestamp and whose name is absent from the desired map, and no other
call; each `Delete` is addressed to the name under which the observed map holds the object
and carries that object's uid as precondition. -/
theorem deleteChildren_issues_exactly {σ : Type} (P : Platform σ) (client : Client)
    (parent : Unstructured) (observed : ObjMap) (desired : Option ObjMap) (s : σ) :
    (deleteChildren P client parent observed desired s).ops =
      (observed.filter (fun e =>
        !e.2.hasDeletionTimestamp P.timeNonZero && (desired.bind (mapGet e.1)).isNone)).map
        (fun e => Op.delete client e.1 e.2.getUID) := by
  rw [deleteChildren_ops, filterMap_deleteFor]

/-- Claim C4. First part: for a desired entry whose name is present in the observed map of
the same key, the calls that `updateChildren` issues for that entry, between those for the
entries before it and those for the entries after it, are a single `Update` of the object
when its content differs from the observed content under `reflect.DeepEqual`, and nothing
otherwise; never a `Create`. Second part: when the observed and desired child maps are
deep-equal, in either order of comparison, `manageChildren` issues no call at all. -/
theorem updateChildren_updates_iff_differs :
    (∀ {σ : Type} (P : Platform σ) (client : Client) (parent : Unstructured)
        (observed : Option ObjMap) (pre post : ObjMap) (name : String)
        (obj oldObj : Unstructured) (s s1 s2 : σ),
        observed.bind (mapGet name) = some oldObj →
        (updateChildren P client parent observed (pre ++ (name, obj) :: post) s).ops =
          (updateChildren P client parent observed pre s1).ops ++
            (if Value.deepEqual obj.content oldObj.content then []
              else [Op.update client obj]) ++
            (updateChildren P client parent observed post s2).ops) ∧
    (∀ {σ : Type} (P : Platform σ) (lc : LambdaController) (parent : Unstructured)
        (observedChildren desiredChildren : ChildMap) (s : σ),
        childMapWf observedChildren = true → childMapWf desiredChildren = true →
        (childMapDeepEqual observedChildren desiredChildren = true ∨
          childMapDeepEqual desiredChildren observedChildren = true) →
        (manageChildren P lc parent observedChildren desiredChildren s).trace = []) := by
  refine ⟨?_, ?_⟩
  · intro σ P client parent observed pre post name obj oldObj s s1 s2 hold
    simp only [updateChildren_ops, List.filterMap_append, List.filterMap_cons,
      filterMap_applyFor_present client parent observed name obj oldObj hold]
    cases Value.deepEqual obj.content oldObj.content <;> simp
  · intro σ P lc parent observedChildren desiredChildren s hwo hwd heq
    exact manageChildren_noop P lc parent observedChildren desiredChildren s hwo hwd heq

/-- Claim C4 at the update scenario (`spec.replicas` goes from 1 to 2: one `Update`) and at
the no-op scenario (observed equals desired: no call). -/
theorem updateChildren_updates_iff_differs_witness :
    (updateChildren (examplePlatform (fun _ => false) false [] exampleResponse) examplePodClient
        exampleParent (some [("p-1", exampleObservedPod "p-1" "uid-1" 1)])
        ([] ++ ("p-1", exampleObservedPod "p-1" "uid-1" 2) :: []) 0).ops =
      [] ++ [Op.update examplePodClient (exampleObservedPod "p-1" "uid-1" 2)] ++ [] ∧
    (manageChildren (examplePlatform (fun _ => false) false [] exampleResponse)
        exampleController exampleParent
        [("Pod.v1", [("p-1", exampleObservedPod "p-1" "uid-1" 1)])]
        [("Pod.v1", [("p-1", exampleObservedPod "p-1" "uid-1" 1)])] 0).trace = [] :=
  ⟨updateChildren_updates_iff_differs.1 (examplePlatform (fun _ => false) false []
      exampleResponse) examplePodClient exampleParent
      (some [("p-1", exampleObservedPod "p-1" "uid-1" 1)]) [] [] "p-1"
      (exampleObservedPod "p-1" "uid-1" 2) (exampleObservedPod "p-1" "uid-1" 1) 0 0 0 rfl,
    updateChildren_updates_iff_differs.2 (examplePlatform (fun _ => false) false []
      exampleResponse) exampleController exampleParent
      [("Pod.v1", [("p-1", exampleObservedPod "p-1" "uid-1" 1)])]
      [("Pod.v1", [("p-1", exampleObservedPod "p-1" "uid-1" 1)])] 0 rfl rfl (Or.inl rfl)⟩

/-- Claim C6. For every freshly read parent `obj` and every desired status, the mutate
callback of `updateParentStatus` reports "no change" exactly when the current status of the
parent deep-equals the desired status, and then leaves the object as it is; otherwise it
reports "changed", the status of the resulting object is the desired status, and every other
top-level field of the parent is unchanged. -/
theorem updateParentStatus_mutate_spec (status : Option Fields) (obj : Unstructured) :
    ((updateParentStatusMutate status obj).1 = false ↔
        Value.deepEqual (getNestedField obj.content ["status"]) (mapValue status) = true) ∧
      ((updateParentStatusMutate status obj).1 = false →
        (updateParentStatusMutate status obj).2 = obj) ∧
      ((updateParentStatusMutate status obj).1 = true →
        getNestedField (updateParentStatusMutate status obj).2.content ["status"] =
            mapValue status ∧
          ∀ field : String, field ≠ "status" →
            mapGet field (updateParentStatusMutate status obj).2.object =
              mapGet field obj.object) := by
  unfold updateParentStatusMutate
  by_cases h : Value.deepEqual (getNestedField obj.content ["status"]) (mapValue status) = true
  · simp [h]
  · simp only [h, Bool.false_eq_true, if_false, iff_self, true_and]
    refine ⟨by simp, ⟨fun e => ?_, fun _ => ⟨?_, ?_⟩⟩⟩
    · exact absurd e (by simp)
    · simp [Unstructured.content, getNestedField, setNestedField, mapGet_mapSet_self]
    · intro field hf
      simp [setNestedField, mapGet_mapSet_ne _ _ _ _ hf]

/-- Claim C6 at a parent whose status `replicas: 1` differs from the desired `replicas: 2`:
the callback reports "changed", the new status is the desired one, the rest is untouched. -/
theorem updateParentStatus_mutate_spec_witness :
    (updateParentStatusMutate (some [("replicas", .int 2)]) exampleParent).1 = true ∧
      (getNestedField (updateParentStatusMutate (some [("replicas", .int 2)])
          exampleParent).2.content ["status"] = mapValue (some [("replicas", .int 2)]) ∧
        ∀ field : String, field ≠ "status" →
          mapGet field (updateParentStatusMutate (some [("replicas", .int 2)])
            exampleParent).2.object = mapGet field exampleParent.object) :=
  ⟨rfl, (updateParentStatus_mutate_spec (some [("replicas", .int 2)]) exampleParent).2.2 rfl⟩

/-- Claim C7. For every observed and desired child map, in the sequence of calls that
`manageChildren` issues, every `Delete` comes before every `Create` and every `Update`, of
the same key or of another. -/
theorem manageChildren_deletes_first {σ : Type} (P : Platform σ) (lc : LambdaController)
    (parent : Unstructured) (observedChildren desiredChildren : ChildMap) (s : σ)
    (i j : Nat) (a b : Op)
    (hi : (manageChildren P lc parent observedChildren desiredChildren s).ops[i]? = some a)
    (hj : (manageChildren P lc parent observedChildren desiredChildren s).ops[j]? = some b)
    (ha : a.isDelete = true) (hb : b.isCreate = true ∨ b.isUpdate = true) : i < j := by
  obtain ⟨ds, us, e, hds, hus⟩ :=
    manageChildren_ops_split P lc parent observedChildren desiredChildren s
  rw [e] at hi hj
  have hb' : b.isDelete = false := by
    cases b <;> simp [Op.isDelete, Op.isCreate, Op.isUpdate] at hb ⊢
  have h1 : i < ds.length := by
    by_contra hlt
    have := hus a (getElem?_append_mem_right ds us i a hi (Nat.le_of_not_lt hlt))
    rw [ha] at this
    cases this
  have h2 : ds.length ≤ j := by
    by_contra hlt
    have := hds b (getElem?_append_mem_left ds us j b hj (Nat.lt_of_not_le hlt))
    rw [hb'] at this
    cases this
  omega

/-- Claim C7 at a pass that replaces `p-0` by `p-1`: the `Delete` is the first call and the
`Create` the second. -/
theorem manageChildren_deletes_first_witness :
    (manageChildren (examplePlatform (fun _ => false) false [] exampleResponse)
        exampleController exampleParent
        [("Pod.v1", [("p-0", exampleObservedPod "p-0" "uid-0" 1)])]
        [("Pod.v1", [("p-1", examplePod "p-1")])] 0).ops =
      [.delete examplePodClient "p-0" "uid-0",
        .create examplePodClient (objectToCreate exampleParent (examplePod "p-1"))] ∧
    0 < 1 :=
  ⟨rfl, manageChildren_deletes_first (examplePlatform (fun _ => false) false [] exampleResponse)
    exampleController exampleParent
    [("Pod.v1", [("p-0", exampleObservedPod "p-0" "uid-0" 1)])]
    [("Pod.v1", [("p-1", examplePod "p-1")])] 0 0 1
    (.delete examplePodClient "p-0" "uid-0")
    (.create examplePodClient (objectToCreate exampleParent (examplePod "p-1")))
    rfl rfl rfl (Or.inl rfl)⟩

/-- Claim C8. For child maps whose keys have the form `"<kind>.<apiVersion>"`: whatever the
child calls return (`P` and `P'` are any two platforms with the same static lookups),
`manageChildren` attempts the same calls, in particular the same as on a platform where no
call fails; and it returns an aggregate error that is non-nil exactly when some attempted
call returned an error or the client lookup of some key failed. -/
theorem manageChildren_keeps_going {σ σ' : Type} (P : Platform σ) (P' : Platform σ')
    (lc : LambdaController) (parent : Unstructured) (observedChildren desiredChildren : ChildMap)
    (s : σ) (s' : σ')
    (ht : P.timeNonZero = P'.timeNonZero) (hk : P.kind = P'.kind)
    (hw : ∀ key ∈ mapKeys observedChildren ++ mapKeys desiredChildren, '.' ∈ key.data) :
    (manageChildren P lc parent observedChildren desiredChildren s).ops =
        (manageChildren P' lc parent observedChildren desiredChildren s').ops ∧
      ∃ err, (manageChildren P lc parent observedChildren desiredChildren s).value =
          .returned err ∧
        (err.isSome = true ↔
          ((∃ e ∈ (manageChildren P lc parent observedChildren desiredChildren s).trace,
              e.2.isSome = true) ∨
            ∃ key ∈ mapKeys observedChildren ++ mapKeys desiredChildren,
              ∃ apiVersion kind e, parseChildMapKey key = .returned (apiVersion, kind) ∧
                P.kind apiVersion kind parent.getNamespace = .error e)) := by
  refine ⟨manageChildren_indep P P' ht hk lc parent observedChildren desiredChildren s s', ?_⟩
  obtain ⟨err, hv, hiff⟩ := manageChildren_returned P lc parent observedChildren
    desiredChildren s (fun k hk => hw k (List.mem_append_left _ hk))
    (fun k hk => hw k (List.mem_append_right _ hk))
  refine ⟨err, hv, ?_⟩
  have h1 := anyFailed_eq_true (manageChildren P lc parent observedChildren desiredChildren s).trace
  have h2 := anyLookupFailed_eq_true P parent observedChildren
  have h3 := anyLookupFailed_eq_true P parent desiredChildren
  rw [← h1]
  have h4 : (∃ key ∈ mapKeys observedChildren ++ mapKeys desiredChildren,
              ∃ apiVersion kind e, parseChildMapKey key = .returned (apiVersion, kind) ∧
                P.kind apiVersion kind parent.getNamespace = .error e) ↔
      (anyLookupFailed P parent observedChildren = true ∨
        anyLookupFailed P parent desiredChildren = true) := by
    rw [h2, h3]
    constructor
    · rintro ⟨key, hkey, rest⟩
      rcases List.mem_append.mp hkey with h | h
      · exact Or.inl ⟨key, h, rest⟩
      · exact Or.inr ⟨key, h, rest⟩
    · rintro (⟨key, h, rest⟩ | ⟨key, h, rest⟩)
      · exact ⟨key, List.mem_append_left _ h, rest⟩
      · exact ⟨key, List.mem_append_right _ h, rest⟩
  rw [h4]
  have h5 : err.isSome = true ↔ ¬ err = none := by cases err <;> simp
  rw [h5, hiff]
  cases anyFailed (manageChildren P lc parent observedChildren desiredChildren s).trace <;>
    cases anyLookupFailed P parent observedChildren <;>
    cases anyLookupFailed P parent desiredChildren <;> simp

/-- Claim C8 at a pass that replaces `p-0` by `p-1`, once with every child call failing and
once with none failing. -/
theorem manageChildren_keeps_going_witness :
    (manageChildren (examplePlatform (fun _ => true) false ["Job"] exampleResponse)
        exampleController exampleParent
        [("Pod.v1", [("p-0", exampleObservedPod "p-0" "uid-0" 1)])]
        [("Pod.v1", [("p-1", examplePod "p-1")])] 0).ops =
      (manageChildren (examplePlatform (fun _ => false) false ["Job"] exampleResponse)
        exampleController exampleParent
        [("Pod.v1", [("p-0", exampleObservedPod "p-0" "uid-0" 1)])]
        [("Pod.v1", [("p-1", examplePod "p-1")])] 7).ops ∧
    ∃ err, (manageChildren (examplePlatform (fun _ => true) false ["Job"] exampleResponse)
        exampleController exampleParent
        [("Pod.v1", [("p-0", exampleObservedPod "p-0" "uid-0" 1)])]
        [("Pod.v1", [("p-1", examplePod "p-1")])] 0).value = .returned err ∧
      (err.isSome = true ↔
        ((∃ e ∈ (manageChildren (examplePlatform (fun _ => true) false ["Job"] exampleResponse)
            exampleController exampleParent
            [("Pod.v1", [("p-0", exampleObservedPod "p-0" "uid-0" 1)])]
            [("Pod.v1", [("p-1", examplePod "p-1")])] 0).trace, e.2.isSome = true) ∨
          ∃ key ∈ mapKeys [("Pod.v1", [("p-0", exampleObservedPod "p-0" "uid-0" 1)])] ++
              mapKeys [("Pod.v1", [("p-1", examplePod "p-1")])],
            ∃ apiVersion kind e, parseChildMapKey key = .returned (apiVersion, kind) ∧
              (examplePlatform (fun _ => true) false ["Job"] exampleResponse).kind apiVersion
                kind exampleParent.getNamespace = .error e)) :=
  manageChildren_keeps_going (examplePlatform (fun _ => true) false ["Job"] exampleResponse)
    (examplePlatform (fun _ => false) false ["Job"] exampleResponse)
    exampleController exampleParent
    [("Pod.v1", [("p-0", exampleObservedPod "p-0" "uid-0" 1)])]
    [("Pod.v1", [("p-1", examplePod "p-1")])] 0 7 rfl rfl (by decide)

/-- Claim C9. Key round trip: for every kind that holds no `.` and every apiVersion,
`parseChildMapKey` applied to the key `"<kind>.<apiVersion>"` returns the pair
`(apiVersion, kind)`. -/
theorem parseChildMapKey_round_trip (kind apiVersion : String) (h : '.' ∉ kind.data) :
    parseChildMapKey (childMapKey kind apiVersion) = .returned (apiVersion, kind) := by
  rw [parseChildMapKey_of_split _ kind.data apiVersion.data (childMapKey_data kind apiVersion) h]

/-- Claim C9 at an apiVersion that itself holds dots. -/
theorem parseChildMapKey_round_trip_witness :
    parseChildMapKey (childMapKey "LambdaController" "metacontroller.k8s.io/v1alpha1") =
      .returned ("metacontroller.k8s.io/v1alpha1", "LambdaController") :=
  parseChildMapKey_round_trip "LambdaController" "metacontroller.k8s.io/v1alpha1" (by decide)

/-- Claim C10 as stated fails: on the empty key `parseChildMapKey` panics instead of
reporting an error, and `manageChildren`, given an observed map with that key, panics too:
it returns no aggregate error and never reaches the desired `Pod` of the other key. -/
theorem manageChildren_malformed_key_stops :
    parseChildMapKey "" = .panicked ∧
    (manageChildren (examplePlatform (fun _ => false) false [] exampleResponse)
        exampleController exampleParent [("", [])]
        [("Pod.v1", [("p-1", examplePod "p-1")])] 0).value = .panicked ∧
    (manageChildren (examplePlatform (fun _ => false) false [] exampleResponse)
        exampleController exampleParent [("", [])]
        [("Pod.v1", [("p-1", examplePod "p-1")])] 0).trace = [] :=
  ⟨rfl, rfl, rfl⟩

/-- Claim C10, amended. `parseChildMapKey` has no error result. On a key that holds no `.`
it does not return a pair: the index `parts[1]` is out of range and the call panics, and a
`manageChildren` pass over child maps that hold such a key panics as well, so it returns no
aggregate error. Every key built as `"<kind>.<apiVersion>"`, as `makeChildMap` and
`claimChildren` build them, is parsed into a pair. -/
theorem parseChildMapKey_malformed (key : String) (hbad : '.' ∉ key.data) :
    parseChildMapKey key = .panicked ∧
      (∀ {σ : Type} (P : Platform σ) (lc : LambdaController) (parent : Unstructured)
        (observedChildren desiredChildren : ChildMap) (s : σ),
        (key ∈ mapKeys observedChildren ∨ key ∈ mapKeys desiredChildren) →
        (manageChildren P lc parent observedChildren desiredChildren s).value = .panicked) ∧
      (∀ kind apiVersion : String, ∃ parsedVersion parsedKind,
        parseChildMapKey (childMapKey kind apiVersion) =
          .returned (parsedVersion, parsedKind)) := by
  refine ⟨parseChildMapKey_of_not_mem key hbad, ?_, ?_⟩
  · intro σ P lc parent observedChildren desiredChildren s hk
    exact manageChildren_panics_of_key P lc parent observedChildren desiredChildren s key hk hbad
  · intro kind apiVersion
    exact parseChildMapKey_of_mem _ (by rw [childMapKey_data]; simp)

/-- Claim C10, amended, at the key `Pod`, which lacks the apiVersion part. -/
theorem parseChildMapKey_malformed_witness :
    parseChildMapKey "Pod" = .panicked ∧
    (manageChildren (examplePlatform (fun _ => false) false [] exampleResponse)
        exampleController exampleParent [] [("Pod", [("p-1", examplePod "p-1")])] 0).value =
      .panicked :=
  ⟨(parseChildMapKey_malformed "Pod" (by decide)).1,
    (parseChildMapKey_malformed "Pod" (by decide)).2.1
      (examplePlatform (fun _ => false) false [] exampleResponse) exampleController
      exampleParent [] [("Pod", [("p-1", examplePod "p-1")])] 0 (Or.inr (by simp [mapKeys]))⟩

end Metacontroller
